import Mathlib

/-!
Verification of the budget-aware chunking planner and the chunked review
pipeline of the ai-pr-bot repository.

The first part of this file is a shallow embedding of the relevant source:

* `src/lib/ai-service/enhanced-context-manager.ts` — the
  `EnhancedContextManager` class: token estimation, content prioritisation
  and the five chunking strategies behind `analyzeAndChunk`.
* `src/lib/ai-service/enhanced-ai-service.ts` — the `EnhancedAIService`
  class: the sequential chunk loop of `reviewWithEnhancedContext` with its
  cost-limit check, and `mergeChunkReviews`.

JavaScript strings are modelled as Lean `String`s; the string operations
used by the source (`split` on a single-character separator, `toLowerCase`,
`trim`, `startsWith`, `includes`, and case-insensitive literal regex tests)
are implemented below over `String.data` by structural recursion.
JavaScript numbers are modelled as `ℤ` where the source only ever holds
integers (token counts, budgets) and as `ℚ` where fractional values occur
(density multipliers, costs, confidences).
-/

namespace AIPRBot

/-- Case-insensitive lowering of a string (models `String.prototype.toLowerCase`
on the ASCII file names and pattern literals used by the source). -/
def lowerStr (s : String) : String :=
  ⟨s.data.map Char.toLower⟩

/-- Occurrence test for a literal pattern in a character list. -/
def charsContain (pat : List Char) : List Char → Bool
  | [] => pat.isEmpty
  | c :: rest => pat.isPrefixOf (c :: rest) || charsContain pat rest

/-- Models `String.prototype.includes(pat)` for a literal `pat`, and the
test `/pat/.test(s)` of a regex made of plain literal characters. -/
def strContains (s pat : String) : Bool :=
  charsContain pat.data s.data

/-- Splitting a character list at every occurrence of a separator character.
The accumulator holds the current (reversed) segment. -/
def splitCharAux (sep : Char) : List Char → List Char → List (List Char)
  | [], acc => [acc.reverse]
  | c :: rest, acc =>
    if c = sep then acc.reverse :: splitCharAux sep rest []
    else splitCharAux sep rest (c :: acc)

/-- Models `String.prototype.split(sep)` for a single-character separator
(the source only splits on `"\n"`, `"/"` and `"."`). -/
def splitChar (sep : Char) (s : String) : List String :=
  (splitCharAux sep s.data []).map (fun cs => ⟨cs⟩)

/-- Models `String.prototype.trim`. -/
def trimStr (s : String) : String :=
  ⟨((s.data.dropWhile Char.isWhitespace).reverse.dropWhile Char.isWhitespace).reverse⟩

/-- Models `String.prototype.startsWith`. -/
def startsWithStr (s pre : String) : Bool :=
  pre.data.isPrefixOf s.data

/-- Models `String.prototype.length` (all strings involved are ASCII, where
UTF-16 length and codepoint count agree). -/
def strLen (s : String) : ℕ :=
  s.data.length

/-! ## Data model (`ai-service/types.ts`, `code-analysis/analyzer/types.ts`) -/

/-- Finding severity: `'critical' | 'high' | 'medium' | 'low'`. -/
inductive Severity
  | critical
  | high
  | medium
  | low
deriving DecidableEq

/-- Finding type: `'security' | 'performance' | 'style' | 'bug' | 'privacy'`. -/
inductive FindingType
  | security
  | performance
  | style
  | bug
  | privacy
deriving DecidableEq

/-- Change type: `'added' | 'modified' | 'deleted'`. -/
inductive ChangeType
  | added
  | modified
  | deleted
deriving DecidableEq

/-- Source location of a finding. -/
structure FindingLocation where
  line : ℤ
  column : ℤ
  endLine : Option ℤ := none
  endColumn : Option ℤ := none
deriving DecidableEq

/-- Models `AnalysisFinding` from the code-analysis types. -/
structure AnalysisFinding where
  id : String
  source : String
  type : FindingType
  severity : Severity
  rule : String
  message : String
  file : String
  location : FindingLocation
  codeSnippet : Option String := none
deriving DecidableEq

/-- Context lines around a hunk. -/
structure HunkContext where
  before : String
  after : String
deriving DecidableEq

/-- Models `DiffHunk` from the ai-service types. -/
structure DiffHunk where
  oldStart : ℤ := 0
  oldLines : ℤ := 0
  newStart : ℤ := 0
  newLines : ℤ := 0
  content : String
  context : Option HunkContext := none
deriving DecidableEq

/-- Models `CodeChange` from the ai-service types. -/
structure CodeChange where
  file : String
  language : Option String := none
  changeType : ChangeType
  hunks : List DiffHunk
  content : Option String := none
  previousContent : Option String := none
deriving DecidableEq

/-! ## Token estimation (`EnhancedContextManager.estimateTokens`) -/

/-- The `TOKEN_MULTIPLIERS` table with the fallback to the `code` entry. -/
def tokenMultiplier : String → ℚ
  | "code" => 2/5
  | "text" => 1/4
  | "markdown" => 3/10
  | "json" => 7/20
  | "diff" => 9/20
  | "minified" => 1/2
  | _ => 2/5

/-- Models `detectContentType`: heuristics for minified code, diffs and JSON. -/
def detectContentType (content : String) : String :=
  if 500 < strLen content ∧ (splitChar '\n' content).length < 5 then "minified"
  else if strContains content "@@" ∧ (strContains content "+++" ∨ strContains content "---") then
    "diff"
  else if startsWithStr (trimStr content) "\x7b" ∨ startsWithStr (trimStr content) "[" then
    "json"
  else "code"

/-- Models `calculateContentDensity`: density multiplier in `[1, 13/10]` from average
line length and the proportion of non-empty lines. -/
def calculateContentDensity (content : String) : ℚ :=
  let lines := splitChar '\n' content
  let nonEmptyLines := lines.filter (fun line => decide (0 < strLen (trimStr line)))
  if lines.length = 0 then 1
  else
    let avgLineLength : ℚ := (strLen content : ℚ) / (lines.length : ℚ)
    let density : ℚ := 1
    let density := if 80 < avgLineLength then density * (11/10) else density
    let density := if 120 < avgLineLength then density * (11/10) else density
    let density :=
      if (9/10 : ℚ) < (nonEmptyLines.length : ℚ) / (lines.length : ℚ) then density * (11/10)
      else density
    min density (13/10)

/-- Ceiling of a nonnegative rational, as an integer.  Token estimates are
`content.length * multiplier * density` with a nonnegative length and positive
multipliers, so this agrees with `Math.ceil` wherever the source applies it. -/
def ceilPos (q : ℚ) : ℤ :=
  ((q.num.toNat + q.den - 1) / q.den : ℕ)

/-- Models `estimateTokens`: auto-detects the content type when absent (or falsy),
then applies the per-type multiplier adjusted by the content density. -/
def estimateTokens (content : String) (type? : Option String := none) : ℤ :=
  let ty :=
    match type? with
    | none => detectContentType content
    | some t => if t = "" then detectContentType content else t
  let multiplier := tokenMultiplier ty
  let density := calculateContentDensity content
  let adjustedMultiplier := multiplier * density
  ceilPos ((strLen content : ℚ) * adjustedMultiplier)

/-- One iteration of the hunk loop of `estimateChangeTokens`: adds the
estimate of the hunk's content and of any (truthy) context strings. -/
def hunkStep (tokens : ℤ) (hunk : DiffHunk) : ℤ :=
  let tokens := tokens + estimateTokens hunk.content
  let tokens :=
    match hunk.context with
    | some ctx => if ctx.before ≠ "" then tokens + estimateTokens ctx.before else tokens
    | none => tokens
  match hunk.context with
  | some ctx => if ctx.after ≠ "" then tokens + estimateTokens ctx.after else tokens
  | none => tokens

/-- Models `estimateChangeTokens`: 50 tokens base overhead plus the estimate of each
hunk's content and any (truthy) context strings. -/
def estimateChangeTokens (change : CodeChange) : ℤ :=
  change.hunks.foldl hunkStep 50

/-- Models `estimateFindingTokens`: 60 tokens per finding. -/
def estimateFindingTokens (findings : List AnalysisFinding) : ℤ :=
  findings.length * 60

/-- Models `calculateTotalTokens`. -/
def calculateTotalTokens (changes : List CodeChange) (findings : List AnalysisFinding) : ℤ :=
  changes.foldl (fun sum change => sum + estimateChangeTokens change) 0
    + estimateFindingTokens findings

/-! ## Content priorities (`ContentPriority`, `calculateChangePriority`) -/

namespace ContentPriority

def CRITICAL_SECURITY : ℕ := 100

def HIGH_SECURITY : ℕ := 90

def CRITICAL_BUG : ℕ := 80

def HIGH_BUG : ℕ := 70

def PERFORMANCE : ℕ := 60

def MEDIUM_ISSUE : ℕ := 50

def LOW_ISSUE : ℕ := 40

def STYLE : ℕ := 30

def CONTEXT : ℕ := 20

def METADATA : ℕ := 10

end ContentPriority

/-- The literal patterns of `isSecuritySensitiveFile`, all matched
case-insensitively. -/
def sensitivePatterns : List String :=
  ["auth", "security", "token", "password", "secret", "key", "credential", "session",
    "jwt", "oauth"]

/-- Models `isSecuritySensitiveFile`. -/
def isSecuritySensitiveFile (file : String) : Bool :=
  sensitivePatterns.any (fun pat => strContains (lowerStr file) pat)

/-- The literal patterns of `isCriticalFile`, all matched case-insensitively. -/
def criticalPatterns : List String :=
  ["config", "database", "api", "route", "middleware", "handler"]

/-- Models `isCriticalFile`. -/
def isCriticalFile (file : String) : Bool :=
  criticalPatterns.any (fun pat => strContains (lowerStr file) pat)

/-- Models `getFindingPriority`: severity/type weighted priority of a finding. -/
def getFindingPriority (finding : AnalysisFinding) : ℕ :=
  match finding.severity with
  | .critical =>
    if finding.type = .security then ContentPriority.CRITICAL_SECURITY
    else ContentPriority.CRITICAL_BUG
  | .high =>
    if finding.type = .security then ContentPriority.HIGH_SECURITY
    else ContentPriority.HIGH_BUG
  | .medium => ContentPriority.MEDIUM_ISSUE
  | .low => ContentPriority.LOW_ISSUE

/-- Models `calculateChangePriority`: baseline context priority, raised by related
findings, by the security-sensitive-name boost (added files only) and by the
critical-file boost. -/
def calculateChangePriority (change : CodeChange) (findings : List AnalysisFinding) : ℕ :=
  let priority := findings.foldl (fun priority f => max priority (getFindingPriority f))
    ContentPriority.CONTEXT
  let priority :=
    if change.changeType = .added ∧ isSecuritySensitiveFile change.file then
      max priority ContentPriority.HIGH_SECURITY
    else priority
  if isCriticalFile change.file then max priority ContentPriority.HIGH_BUG else priority

/-- One prioritised entry of `prioritizeContent`'s output. -/
structure PrioritizedItem where
  change : CodeChange
  priority : ℕ
  relatedFindings : List AnalysisFinding
  mustInclude : Bool
deriving DecidableEq

/-- Stable insertion into a list sorted by `f` in descending order; an element
is placed before every element of strictly smaller measure, matching the
stable `Array.prototype.sort((a, b) => f(b) - f(a))`. -/
def insertDescBy (f : α → ℕ) (x : α) : List α → List α
  | [] => [x]
  | y :: ys => if f x < f y then y :: insertDescBy f x ys else x :: y :: ys

/-- Stable sort by `f`, descending. -/
def sortDescBy (f : α → ℕ) : List α → List α
  | [] => []
  | x :: xs => insertDescBy f x (sortDescBy f xs)

/-- Findings related to a file: the per-file lists of the `findingsByFile`
map, which collect the findings of each file in their original order. -/
def relatedFindingsFor (findings : List AnalysisFinding) (file : String) :
    List AnalysisFinding :=
  findings.filter (fun f => f.file = file)

/-- Builds one prioritised item of `prioritizeContent`. -/
def prioritizeOne (findings : List AnalysisFinding) (forceIncludeFiles : Option (List String))
    (change : CodeChange) : PrioritizedItem :=
  let relatedFindings := relatedFindingsFor findings change.file
  let mustInclude :=
    match forceIncludeFiles with
    | some files => files.contains change.file
    | none => false
  let priority := calculateChangePriority change relatedFindings
  let priority :=
    if mustInclude then max priority ContentPriority.CRITICAL_SECURITY else priority
  { change, priority, relatedFindings, mustInclude }

/-- Models `prioritizeContent`: maps every change to a prioritised item and sorts by
priority, descending. -/
def prioritizeContent (changes : List CodeChange) (findings : List AnalysisFinding)
    (forceIncludeFiles : Option (List String)) : List PrioritizedItem :=
  sortDescBy (fun item => item.priority)
    (changes.map (prioritizeOne findings forceIncludeFiles))

/-! ## Chunks and chunking strategies -/

/-- A chunk of the planner's output. -/
structure Chunk where
  id : String
  priority : ℕ
  changes : List CodeChange
  findings : List AnalysisFinding
  tokenEstimate : ℤ
  description : String
deriving DecidableEq

/-- Token estimate of one prioritised item (its change plus its related
findings). -/
def itemTokens (item : PrioritizedItem) : ℤ :=
  estimateChangeTokens item.change + estimateFindingTokens item.relatedFindings

/-- Appends an item's change and findings to a chunk, updating the token
estimate and priority. -/
def addItemToChunk (chunk : Chunk) (item : PrioritizedItem) : Chunk :=
  { chunk with
    changes := chunk.changes ++ [item.change]
    findings := chunk.findings ++ item.relatedFindings
    tokenEstimate := chunk.tokenEstimate + itemTokens item
    priority := max chunk.priority item.priority }

/-- A fresh chunk. -/
def emptyChunk (id description : String) : Chunk :=
  { id, priority := 0, changes := [], findings := [], tokenEstimate := 0, description }

/-- One step of `createSingleChunk`: an item is added when it fits the
available budget or is marked must-include, and is skipped otherwise. -/
def singleChunkStep (availableTokens : ℤ) (chunk : Chunk) (item : PrioritizedItem) : Chunk :=
  if chunk.tokenEstimate + itemTokens item ≤ availableTokens ∨ item.mustInclude then
    addItemToChunk chunk item
  else chunk

/-- Models `createSingleChunk`: fills one chunk, must-include items first, then the
remaining items in their given order. -/
def createSingleChunk (content : List PrioritizedItem) (availableTokens : ℤ)
    (id description : String) : Chunk :=
  (content.filter (fun c => c.mustInclude) ++ content.filter (fun c => !c.mustInclude)).foldl
    (singleChunkStep availableTokens) (emptyChunk id description)

/-- One priority range of `chunkBySeverity`. -/
structure PriorityGroup where
  lo : ℕ
  hi : ℕ
  name : String

/-- The five (overlapping) priority ranges of `chunkBySeverity`. -/
def priorityGroups : List PriorityGroup :=
  [⟨ContentPriority.CRITICAL_SECURITY - 10, ContentPriority.CRITICAL_SECURITY + 10,
      "Critical Security"⟩,
    ⟨ContentPriority.HIGH_SECURITY - 10, ContentPriority.HIGH_SECURITY + 10, "High Security"⟩,
    ⟨ContentPriority.CRITICAL_BUG - 10, ContentPriority.CRITICAL_BUG + 10, "Critical Bugs"⟩,
    ⟨ContentPriority.HIGH_BUG - 10, ContentPriority.HIGH_BUG + 10, "High Priority"⟩,
    ⟨0, ContentPriority.MEDIUM_ISSUE + 10, "Other Issues"⟩]

/-- Chunk id of a severity group: the group name, lowercased, spaces replaced
by dashes (the names contain single spaces only). -/
def severityGroupId (name : String) : String :=
  "severity-" ++ ⟨(lowerStr name).data.map (fun c => if c = ' ' then '-' else c)⟩

/-- Models `chunkBySeverity`: one chunk per priority range holding the content whose
priority falls inside the range; empty ranges and empty chunks are skipped. -/
def chunkBySeverity (content : List PrioritizedItem) (availableTokens : ℤ) : List Chunk :=
  priorityGroups.filterMap (fun group =>
    let groupContent :=
      content.filter (fun c => decide (group.lo ≤ c.priority) && decide (c.priority ≤ group.hi))
    if groupContent.isEmpty then none
    else
      let chunk := createSingleChunk groupContent availableTokens
        (severityGroupId group.name) group.name
      if chunk.changes.isEmpty then none else some chunk)

/-- Module of a file: the first path segment, `"root"` when empty (models
`file.split('/')[0] || 'root'`). -/
def moduleOf (file : String) : String :=
  let m := (splitChar '/' file).headD ""
  if m = "" then "root" else m

/-- File extension: the last dot segment, `"unknown"` when empty (models
`file.split('.').pop() || 'unknown'`). -/
def extOf (file : String) : String :=
  let e := (splitChar '.' file).getLastD ""
  if e = "" then "unknown" else e

/-- Appends an item to its key's group, creating the group at the end when
absent — the insertion-order behaviour of a JavaScript `Map`. -/
def insertGrouped (key : String) (item : PrioritizedItem) :
    List (String × List PrioritizedItem) → List (String × List PrioritizedItem)
  | [] => [(key, [item])]
  | (k, g) :: rest =>
    if k = key then (k, g ++ [item]) :: rest else (k, g) :: insertGrouped key item rest

/-- Groups content by a string key, preserving both group creation order and
the order of items inside each group. -/
def groupByKey (key : PrioritizedItem → String) (content : List PrioritizedItem) :
    List (String × List PrioritizedItem) :=
  content.foldl (fun groups item => insertGrouped (key item) item groups) []

/-- Highest priority inside a group (`Math.max(...group.map(c => c.priority))`;
groups are never empty, where this agrees with a fold from 0). -/
def groupMaxPriority (g : List PrioritizedItem) : ℕ :=
  g.foldl (fun m item => max m item.priority) 0

/-- Models `chunkByModule`: one chunk per module group, visited in descending order
of each group's highest priority; empty chunks are skipped. -/
def chunkByModule (content : List PrioritizedItem) (availableTokens : ℤ) : List Chunk :=
  let moduleGroups := groupByKey (fun item => moduleOf item.change.file) content
  let sortedModules := sortDescBy (fun mg => groupMaxPriority mg.2) moduleGroups
  sortedModules.filterMap (fun mg =>
    let chunk := createSingleChunk mg.2 availableTokens ("module-" ++ mg.1)
      ("Module: " ++ mg.1)
    if chunk.changes.isEmpty then none else some chunk)

/-- Models `chunkByFileType`: one chunk per file-extension group, in group creation
order; empty chunks are skipped. -/
def chunkByFileType (content : List PrioritizedItem) (availableTokens : ℤ) : List Chunk :=
  (groupByKey (fun item => extOf item.change.file) content).filterMap (fun tg =>
    let chunk := createSingleChunk tg.2 availableTokens ("type-" ++ tg.1)
      ("File Type: " ++ tg.1)
    if chunk.changes.isEmpty then none else some chunk)

/-- Models `smartChunk`: one chunk for must-include and critical content, then the
remaining content chunked by module. -/
def smartChunk (content : List PrioritizedItem) (availableTokens : ℤ) : List Chunk :=
  let criticalContent :=
    content.filter (fun c => c.mustInclude || decide (ContentPriority.CRITICAL_BUG ≤ c.priority))
  let chunks :=
    if criticalContent.isEmpty then []
    else
      let criticalChunk :=
        createSingleChunk criticalContent availableTokens "critical" "Critical Issues"
      if criticalChunk.changes.isEmpty then [] else [criticalChunk]
  let remainingContent :=
    content.filter (fun c => !c.mustInclude && decide (c.priority < ContentPriority.CRITICAL_BUG))
  chunks ++ chunkByModule remainingContent availableTokens

/-- The loop of `chunkBySize`: when the next item would overflow a non-empty
chunk, the chunk is closed and a fresh chunk is started; the item is then
added to the current chunk unconditionally. -/
def chunkBySizeGo (availableTokens : ℤ) :
    List PrioritizedItem → Chunk → ℕ → List Chunk
  | [], currentChunk, _ =>
    if currentChunk.changes.isEmpty then [] else [currentChunk]
  | item :: rest, currentChunk, chunkCount =>
    if availableTokens < currentChunk.tokenEstimate + itemTokens item
        ∧ ¬currentChunk.changes.isEmpty then
      currentChunk ::
        chunkBySizeGo availableTokens rest
          (addItemToChunk
            (emptyChunk ("chunk-" ++ toString (chunkCount + 1))
              ("Chunk " ++ toString (chunkCount + 1)))
            item)
          (chunkCount + 1)
    else chunkBySizeGo availableTokens rest (addItemToChunk currentChunk item) chunkCount

/-- Models `chunkBySize`: simple greedy size-based chunking. -/
def chunkBySize (content : List PrioritizedItem) (availableTokens : ℤ) : List Chunk :=
  chunkBySizeGo availableTokens content (emptyChunk "chunk-1" "Chunk 1") 1

/-! ## Strategy selection and `analyzeAndChunk` -/

/-- The `ChunkStrategy` enum. -/
inductive ChunkStrategy
  | byModule
  | bySeverity
  | byFileType
  | bySize
  | smart
deriving DecidableEq

/-- The string value of each `ChunkStrategy` member. -/
def ChunkStrategy.value : ChunkStrategy → String
  | .byModule => "by-module"
  | .bySeverity => "by-severity"
  | .byFileType => "by-file-type"
  | .bySize => "by-size"
  | .smart => "smart"

/-- Models `recommendChunkStrategy`: severity grouping under many critical/high
findings, module grouping when changes span many modules, smart chunking for
large change sets, size-based otherwise. -/
def recommendChunkStrategy (changes : List CodeChange) (findings : List AnalysisFinding) :
    ChunkStrategy :=
  let criticalFindings := (findings.filter (fun f => f.severity = .critical)).length
  let highFindings := (findings.filter (fun f => f.severity = .high)).length
  if 5 < criticalFindings ∨ 10 < criticalFindings + highFindings then .bySeverity
  else if 5 < ((changes.map (fun c => (splitChar '/' c.file).headD "")).dedup).length then
    .byModule
  else if 20 < changes.length then .smart
  else .bySize

/-- Models `ContextWindowConfig`. -/
structure ContextWindowConfig where
  model : String
  contextWindowSize : ℤ
  reservedTokens : ℤ
  enableSmartChunking : Bool
  prioritizeSecurityIssues : Bool
  maxChunks : ℤ
deriving DecidableEq

/-- The options argument of `analyzeAndChunk`. -/
structure AnalyzeOptions where
  strategy : Option ChunkStrategy := none
  systemPromptTokens : Option ℤ := none
  forceIncludeFiles : Option (List String) := none
deriving DecidableEq

/-- The summary of `analyzeAndChunk`'s output. -/
structure AnalyzeSummary where
  totalChanges : ℕ
  totalFindings : ℕ
  criticalFindings : ℕ
  estimatedTotalTokens : ℤ
  recommendedStrategy : ChunkStrategy
deriving DecidableEq

/-- The full result of `analyzeAndChunk`. -/
structure AnalysisResult where
  chunks : List Chunk
  summary : AnalyzeSummary
deriving DecidableEq

/-- System prompt token default: `options.systemPromptTokens || 500` (a given
0 is falsy and also falls back to 500). -/
def systemPromptTokensOf (options : AnalyzeOptions) : ℤ :=
  match options.systemPromptTokens with
  | none => 500
  | some n => if n = 0 then 500 else n

/-- Models `createChunks`: available tokens are the context window minus reserved
and system prompt tokens; dispatches on the strategy. -/
def createChunks (content : List PrioritizedItem) (strategy : ChunkStrategy)
    (systemPromptTokens : ℤ) (config : ContextWindowConfig) : List Chunk :=
  let availableTokens := config.contextWindowSize - config.reservedTokens - systemPromptTokens
  match strategy with
  | .bySeverity => chunkBySeverity content availableTokens
  | .byModule => chunkByModule content availableTokens
  | .byFileType => chunkByFileType content availableTokens
  | .smart => smartChunk content availableTokens
  | .bySize => chunkBySize content availableTokens

/-- Models `analyzeAndChunk`: prioritises the content and chunks it under the chosen
(or recommended) strategy, and reports summary statistics. -/
def analyzeAndChunk (config : ContextWindowConfig) (changes : List CodeChange)
    (findings : List AnalysisFinding) (options : AnalyzeOptions) : AnalysisResult :=
  let strategy := options.strategy.getD (recommendChunkStrategy changes findings)
  let systemPromptTokens := systemPromptTokensOf options
  let prioritizedContent := prioritizeContent changes findings options.forceIncludeFiles
  let chunks := createChunks prioritizedContent strategy systemPromptTokens config
  { chunks
    summary :=
      { totalChanges := changes.length
        totalFindings := findings.length
        criticalFindings := (findings.filter (fun f => f.severity = .critical)).length
        estimatedTotalTokens := calculateTotalTokens changes findings
        recommendedStrategy := strategy } }

/-! ## Reviews (`ai-service/types.ts`) and merging (`EnhancedAIService`) -/

/-- Review verdict: `'approve' | 'request-changes' | 'comment'`. -/
inductive Verdict
  | approve
  | requestChanges
  | comment
deriving DecidableEq

/-- Impact levels handled by `determineOverallImpact`. -/
inductive ImpactLevel
  | critical
  | high
  | medium
  | low
deriving DecidableEq

/-- Models `ReviewComment` (union-typed string fields kept as strings). -/
structure ReviewComment where
  file : String
  line : ℤ
  endLine : Option ℤ := none
  type : String
  severity : String
  category : String
  message : String
  codeSnippet : Option String := none
  suggestion : Option String := none
  confidence : ℚ
  relatedFindings : Option (List String) := none
deriving DecidableEq

/-- Models `CodeSuggestion` (union-typed string fields kept as strings). -/
structure CodeSuggestion where
  id : String
  file : String
  startLine : ℤ
  endLine : ℤ
  type : String
  description : String
  originalCode : String
  suggestedCode : String
  explanation : String
  confidence : ℚ
  autoApplicable : Bool
deriving DecidableEq

/-- The `summary` field of a `Review`. -/
structure ReviewSummary where
  verdict : Verdict
  confidence : ℚ
  message : String
  healthScore : Option ℚ := none
deriving DecidableEq

/-- The `metrics` field of a `Review`. -/
structure ReviewMetrics where
  issuesFound : ℤ
  criticalIssues : ℤ
  improvements : ℤ
  estimatedImpact : ImpactLevel
deriving DecidableEq

/-- Models `TokenUsage`. -/
structure TokenUsage where
  promptTokens : ℤ
  completionTokens : ℤ
  totalTokens : ℤ
  model : String
  estimatedCost : ℚ
deriving DecidableEq

/-- Models `Review`: note that this type carries no `truncated` field. -/
structure Review where
  summary : ReviewSummary
  comments : List ReviewComment
  suggestions : List CodeSuggestion
  metrics : ReviewMetrics
  usage : TokenUsage
deriving DecidableEq

/-- Concatenation of the reviews' comment lists, in review order
(`reviews.flatMap(r => r.comments)`). -/
def concatComments : List Review → List ReviewComment
  | [] => []
  | r :: rest => r.comments ++ concatComments rest

/-- Concatenation of the reviews' suggestion lists, in review order. -/
def concatSuggestions : List Review → List CodeSuggestion
  | [] => []
  | r :: rest => r.suggestions ++ concatSuggestions rest

/-- Models `determineOverallImpact`: the worst impact present. -/
def determineOverallImpact (impacts : List ImpactLevel) : ImpactLevel :=
  if impacts.contains .critical then .critical
  else if impacts.contains .high then .high
  else if impacts.contains .medium then .medium
  else .low

/-- The overall verdict computed by `mergeChunkReviews`:
request-changes wins over comment, which wins over approve. -/
def overallVerdictOf (verdicts : List Verdict) : Verdict :=
  if verdicts.contains .requestChanges then .requestChanges
  else if verdicts.contains .comment then .comment
  else .approve

/-- The merged review built by `mergeChunkReviews` for two or more chunk
reviews. -/
def mergeManyReviews (reviews : List Review) (analysis : AnalysisResult) : Review :=
  let verdicts := reviews.map (fun r => r.summary.verdict)
  let avgConfidence :=
    (reviews.foldl (fun sum r => sum + r.summary.confidence) 0) / (reviews.length : ℚ)
  { summary :=
      { verdict := overallVerdictOf verdicts
        confidence := avgConfidence
        message :=
          "Reviewed " ++ toString analysis.summary.totalChanges ++ " changes across "
            ++ toString analysis.chunks.length ++ " chunks using "
            ++ analysis.summary.recommendedStrategy.value ++ " strategy. Found "
            ++ toString analysis.summary.criticalFindings ++ " critical issues." }
    comments := concatComments reviews
    suggestions := concatSuggestions reviews
    metrics :=
      { issuesFound := reviews.foldl (fun sum r => sum + r.metrics.issuesFound) 0
        criticalIssues := reviews.foldl (fun sum r => sum + r.metrics.criticalIssues) 0
        improvements := reviews.foldl (fun sum r => sum + r.metrics.improvements) 0
        estimatedImpact :=
          determineOverallImpact (reviews.map (fun r => r.metrics.estimatedImpact)) }
    usage :=
      { promptTokens := reviews.foldl (fun sum r => sum + r.usage.promptTokens) 0
        completionTokens := reviews.foldl (fun sum r => sum + r.usage.completionTokens) 0
        totalTokens := reviews.foldl (fun sum r => sum + r.usage.totalTokens) 0
        model := (reviews.map (fun r => r.usage.model)).headD ""
        estimatedCost := reviews.foldl (fun sum r => sum + r.usage.estimatedCost) 0 } }

/-- Models `mergeChunkReviews`: throws on an empty list, returns a single review
unchanged, and otherwise merges. -/
def mergeChunkReviews (reviews : List Review) (analysis : AnalysisResult) :
    Except String Review :=
  match reviews with
  | [] => .error "No reviews to merge"
  | [r] => .ok r
  | r0 :: r1 :: rest => .ok (mergeManyReviews (r0 :: r1 :: rest) analysis)

/-! ## The sequential chunk loop of `reviewWithEnhancedContext`

The dispatch of one chunk (`generateReviewWithRetry`, a network call to the
analysis collaborator) is abstracted by its outcome: `some review` when the
dispatch succeeds, `none` when it throws.  The loop below is the `for` loop
over `analysis.chunks`: a successful outcome is recorded and its cost added
to the running total, after which the loop breaks when a configured, truthy
(nonzero) cost limit is strictly exceeded; a failed outcome is logged and the
loop continues.  The third component counts how many chunks were dispatched. -/

/-- The cost-limit test `this.config.costLimit && totalCost > this.config.costLimit`
(a missing or zero limit is falsy and never stops the loop). -/
def costLimitHit (costLimit : Option ℚ) (totalCost : ℚ) : Bool :=
  match costLimit with
  | none => false
  | some limit => !(limit == 0) && decide (limit < totalCost)

/-- Result of the chunk loop: the collected reviews, the accumulated cost and
the number of chunks dispatched. -/
structure LoopResult where
  reviews : List Review
  totalCost : ℚ
  dispatched : ℕ
deriving DecidableEq

/-- The sequential chunk loop of `reviewWithEnhancedContext`. -/
def chunkLoop (costLimit : Option ℚ) : List (Option Review) → ℚ → LoopResult
  | [], totalCost => ⟨[], totalCost, 0⟩
  | none :: rest, totalCost =>
    let r := chunkLoop costLimit rest totalCost
    ⟨r.reviews, r.totalCost, r.dispatched + 1⟩
  | some review :: rest, totalCost =>
    let totalCost := totalCost + review.usage.estimatedCost
    if costLimitHit costLimit totalCost then ⟨[review], totalCost, 1⟩
    else
      let r := chunkLoop costLimit rest totalCost
      ⟨review :: r.reviews, r.totalCost, r.dispatched + 1⟩

/-- Reviews collected by the loop for the given per-chunk outcomes. -/
def collectedReviews (outcomes : List (Option Review)) (costLimit : Option ℚ) : List Review :=
  (chunkLoop costLimit outcomes 0).reviews

/-- Number of chunks dispatched by the loop (every loop iteration dispatches
its chunk, whether or not the dispatch then succeeds). -/
def numDispatched (outcomes : List (Option Review)) (costLimit : Option ℚ) : ℕ :=
  (chunkLoop costLimit outcomes 0).dispatched

/-- The multi-chunk path of `reviewWithEnhancedContext`: run the loop, then
merge whatever was collected. -/
def runMultiChunk (outcomes : List (Option Review)) (costLimit : Option ℚ)
    (analysis : AnalysisResult) : Except String Review :=
  mergeChunkReviews (collectedReviews outcomes costLimit) analysis

/-- Cumulative cost recorded after the first `k` chunks: the costs of the
successful outcomes among them (failed dispatches record nothing). -/
def recordedCost (outcomes : List (Option Review)) (k : ℕ) : ℚ :=
  (((outcomes.take k).filterMap id).map (fun r => r.usage.estimatedCost)).sum

/-! ## Specification-side definitions

These definitions follow the wording of the specification (not the source)
and are used to state the claims against the embedded source functions. -/

/-- The available token budget of one planner run: context window minus
reserved tokens minus system prompt tokens. -/
def availableBudget (config : ContextWindowConfig) (options : AnalyzeOptions) : ℤ :=
  config.contextWindowSize - config.reservedTokens - systemPromptTokensOf options

/-- All changes of a chunk list, in chunk order. -/
def flatChanges (chunks : List Chunk) : List CodeChange :=
  (chunks.map (fun ch => ch.changes)).flatten

/-- All items of a group list, group by group. -/
def groupItems (gs : List (String × List PrioritizedItem)) : List PrioritizedItem :=
  (gs.map (fun g => g.2)).flatten

/-- The verdict of a merge result, when the merge succeeds. -/
def mergedVerdict (reviews : List Review) (analysis : AnalysisResult) : Option Verdict :=
  (mergeChunkReviews reviews analysis).toOption.map (fun r => r.summary.verdict)

/-- Spec-side rank of a verdict in the fixed order
request-changes > comment > approve. -/
def Verdict.rank : Verdict → ℕ
  | .approve => 0
  | .comment => 1
  | .requestChanges => 2

/-- Spec-side pairwise dominance of two verdicts. -/
def maxVerdict (a b : Verdict) : Verdict :=
  if a.rank < b.rank then b else a

/-- Spec-side dominant verdict of a list: the pairwise-dominant value across
all verdicts, starting from the bottom element approve. -/
def dominantVerdict (verdicts : List Verdict) : Verdict :=
  verdicts.foldr maxVerdict .approve

/-! ## Concrete values used by witnesses and counterexamples -/

/-- A configuration whose available budget (with the default 500 system
prompt tokens) is 0. -/
def cfgZero : ContextWindowConfig :=
  { model := "gpt-4-turbo-preview", contextWindowSize := 500, reservedTokens := 0,
    enableSmartChunking := true, prioritizeSecurityIssues := true, maxChunks := 10 }

/-- A configuration whose available budget (with the default 500 system
prompt tokens) is 60. -/
def cfgSixty : ContextWindowConfig :=
  { model := "gpt-4-turbo-preview", contextWindowSize := 560, reservedTokens := 0,
    enableSmartChunking := true, prioritizeSecurityIssues := true, maxChunks := 10 }

/-- A change with no hunks to the given file (its token estimate is exactly
the 50-token base overhead). -/
def mkChange (file : String) (changeType : ChangeType) : CodeChange :=
  { file, changeType, hunks := [] }

/-- A low-severity style finding on `utils.js`. -/
def lowFinding : AnalysisFinding :=
  { id := "f1", source := "semgrep", type := .style, severity := .low, rule := "r",
    message := "m", file := "utils.js", location := { line := 1, column := 1 } }

/-- A sample token usage with the given cost. -/
def sampleUsage (cost : ℚ) : TokenUsage :=
  { promptTokens := 10, completionTokens := 5, totalTokens := 15, model := "gpt-4",
    estimatedCost := cost }

/-- A sample chunk review with the given verdict and cost. -/
def sampleReview (v : Verdict) (cost : ℚ) : Review :=
  { summary := { verdict := v, confidence := 1, message := "m" }
    comments := []
    suggestions := []
    metrics :=
      { issuesFound := 0, criticalIssues := 0, improvements := 0, estimatedImpact := .low }
    usage := sampleUsage cost }

/-- The single chunk produced for a 50-token change under a zero budget. -/
def c1Chunk : Chunk :=
  { id := "chunk-1", priority := 20, changes := [mkChange "a" ChangeType.modified],
    findings := [], tokenEstimate := 50, description := "Chunk 1" }

/-- A must-include prioritised item used as a witness input. -/
def c6Item : PrioritizedItem :=
  { change := mkChange "m.js" ChangeType.modified, priority := 100, relatedFindings := [],
    mustInclude := true }

/-- A sample analysis result passed to the merge step. -/
def sampleAnalysis : AnalysisResult :=
  { chunks := []
    summary :=
      { totalChanges := 3, totalFindings := 0, criticalFindings := 0,
        estimatedTotalTokens := 150, recommendedStrategy := .bySize } }

/-! ## Lemmas: token estimates are nonnegative -/

theorem estimateTokens_nonneg (content : String) (type? : Option String) :
    0 ≤ estimateTokens content type? := by
  unfold estimateTokens ceilPos
  exact Int.natCast_nonneg _

theorem hunkStep_le (t : ℤ) (h : DiffHunk) : t ≤ hunkStep t h := by
  cases hctx : h.context with
  | none =>
    simp only [hunkStep, hctx]
    linarith [estimateTokens_nonneg h.content none]
  | some ctx =>
    simp only [hunkStep, hctx]
    split <;> split <;>
      linarith [estimateTokens_nonneg h.content none, estimateTokens_nonneg ctx.before none,
        estimateTokens_nonneg ctx.after none]

theorem foldl_hunkStep_le : ∀ (l : List DiffHunk) (t : ℤ), t ≤ l.foldl hunkStep t
  | [], t => le_refl t
  | h :: l, t => le_trans (hunkStep_le t h) (foldl_hunkStep_le l (hunkStep t h))

theorem estimateChangeTokens_nonneg (change : CodeChange) :
    0 ≤ estimateChangeTokens change := by
  unfold estimateChangeTokens
  calc (0 : ℤ) ≤ 50 := by norm_num
    _ ≤ _ := foldl_hunkStep_le change.hunks 50

theorem estimateFindingTokens_nonneg (findings : List AnalysisFinding) :
    0 ≤ estimateFindingTokens findings := by
  unfold estimateFindingTokens
  positivity

theorem itemTokens_nonneg (item : PrioritizedItem) : 0 ≤ itemTokens item :=
  add_nonneg (estimateChangeTokens_nonneg item.change)
    (estimateFindingTokens_nonneg item.relatedFindings)

/-! ## Lemmas: the descending sort is a permutation -/

theorem insertDescBy_perm {α : Type} (f : α → ℕ) (x : α) :
    ∀ l : List α, (insertDescBy f x l).Perm (x :: l)
  | [] => List.Perm.refl _
  | y :: ys => by
    unfold insertDescBy
    split
    · exact ((insertDescBy_perm f x ys).cons y).trans (List.Perm.swap x y ys)
    · exact List.Perm.refl _

theorem sortDescBy_perm {α : Type} (f : α → ℕ) :
    ∀ l : List α, (sortDescBy f l).Perm l
  | [] => List.Perm.refl _
  | x :: xs =>
    (insertDescBy_perm f x (sortDescBy f xs)).trans ((sortDescBy_perm f xs).cons x)

/-! ## Lemmas: flattened chunk changes -/

@[simp]
theorem flatChanges_nil : flatChanges [] = [] := rfl

@[simp]
theorem flatChanges_cons (ch : Chunk) (l : List Chunk) :
    flatChanges (ch :: l) = ch.changes ++ flatChanges l := by
  simp [flatChanges]

/-! ## Lemmas: `createSingleChunk` -/

theorem foldl_single_changes (availableTokens : ℤ) :
    ∀ (l : List PrioritizedItem) (ch : Chunk),
      ∃ s, (l.foldl (singleChunkStep availableTokens) ch).changes = ch.changes ++ s
        ∧ s.Sublist (l.map (fun it => it.change))
  | [], ch => ⟨[], by simp⟩
  | it :: l, ch => by
    by_cases hc : ch.tokenEstimate + itemTokens it ≤ availableTokens ∨ it.mustInclude = true
    · obtain ⟨s, hs, hsub⟩ := foldl_single_changes availableTokens l (addItemToChunk ch it)
      have hstep : singleChunkStep availableTokens ch it = addItemToChunk ch it := by
        unfold singleChunkStep
        exact if_pos hc
      refine ⟨it.change :: s, ?_, by simpa using List.Sublist.cons₂ it.change hsub⟩
      rw [List.foldl_cons, hstep, hs]
      simp [addItemToChunk]
    · obtain ⟨s, hs, hsub⟩ := foldl_single_changes availableTokens l ch
      have hstep : singleChunkStep availableTokens ch it = ch := by
        unfold singleChunkStep
        exact if_neg hc
      refine ⟨s, ?_, ?_⟩
      · rw [List.foldl_cons, hstep, hs]
      · have hcons : (l.map (fun x => x.change)).Sublist
            ((it :: l).map (fun x => x.change)) := by
          simp only [List.map_cons]
          exact List.sublist_cons_self _ _
        exact hsub.trans hcons

theorem foldl_single_must_mem (availableTokens : ℤ) :
    ∀ (l : List PrioritizedItem) (ch : Chunk) (it : PrioritizedItem), it ∈ l →
      it.mustInclude = true →
      it.change ∈ (l.foldl (singleChunkStep availableTokens) ch).changes
  | [], ch, it, hmem, _ => absurd hmem (List.not_mem_nil it)
  | a :: l, ch, it, hmem, hmust => by
    rcases List.mem_cons.mp hmem with heq | htail
    · subst heq
      obtain ⟨s, hs, _⟩ := foldl_single_changes availableTokens l
        (singleChunkStep availableTokens ch it)
      simp only [List.foldl_cons]
      rw [hs]
      have : it.change ∈ (singleChunkStep availableTokens ch it).changes := by
        unfold singleChunkStep
        rw [if_pos (Or.inr hmust)]
        simp [addItemToChunk]
      exact List.mem_append_left s this
    · exact foldl_single_must_mem availableTokens l _ it htail hmust

theorem foldl_single_budget (availableTokens : ℤ) :
    ∀ (l : List PrioritizedItem) (ch : Chunk), (∀ it ∈ l, it.mustInclude = false) →
      (ch.changes = [] ∨ ch.tokenEstimate ≤ availableTokens) →
      ((l.foldl (singleChunkStep availableTokens) ch).changes = []
        ∨ (l.foldl (singleChunkStep availableTokens) ch).tokenEstimate ≤ availableTokens)
  | [], ch, _, hinv => hinv
  | it :: l, ch, hall, hinv => by
    have hmust : it.mustInclude = false := hall it (List.mem_cons_self it l)
    have htail : ∀ x ∈ l, x.mustInclude = false := fun x hx => hall x (List.mem_cons_of_mem it hx)
    simp only [List.foldl_cons]
    refine foldl_single_budget availableTokens l _ htail ?_
    unfold singleChunkStep
    split
    · rename_i hcond
      rcases hcond with hfit | hm
      · right
        simpa [addItemToChunk] using hfit
      · rw [hmust] at hm
        exact absurd hm (by simp)
    · exact hinv

theorem foldl_single_all_fit (availableTokens : ℤ) :
    ∀ (l : List PrioritizedItem) (ch : Chunk), (∀ it ∈ l, it.mustInclude = false) →
      ch.tokenEstimate + (l.map itemTokens).sum ≤ availableTokens →
      (l.foldl (singleChunkStep availableTokens) ch).changes
        = ch.changes ++ l.map (fun it => it.change)
  | [], ch, _, _ => by simp
  | it :: l, ch, hall, hfit => by
    have hrest : (0 : ℤ) ≤ (l.map itemTokens).sum :=
      List.sum_nonneg (by rintro x hx; obtain ⟨y, _, rfl⟩ := List.mem_map.mp hx
                          exact itemTokens_nonneg y)
    have hone : ch.tokenEstimate + itemTokens it ≤ availableTokens := by
      simp only [List.map_cons, List.sum_cons] at hfit
      linarith
    have hstep : singleChunkStep availableTokens ch it = addItemToChunk ch it := by
      unfold singleChunkStep
      exact if_pos (Or.inl hone)
    simp only [List.foldl_cons, hstep]
    have hrec := foldl_single_all_fit availableTokens l (addItemToChunk ch it)
      (fun x hx => hall x (List.mem_cons_of_mem it hx))
      (by simp only [addItemToChunk, List.map_cons, List.sum_cons] at hfit ⊢; linarith)
    rw [hrec]
    simp [addItemToChunk]

theorem createSingleChunk_sublist (content : List PrioritizedItem) (availableTokens : ℤ)
    (id description : String) :
    (createSingleChunk content availableTokens id description).changes.Sublist
      ((content.filter (fun c => c.mustInclude)
        ++ content.filter (fun c => !c.mustInclude)).map (fun it => it.change)) := by
  unfold createSingleChunk
  obtain ⟨s, hs, hsub⟩ := foldl_single_changes availableTokens
    (content.filter (fun c => c.mustInclude) ++ content.filter (fun c => !c.mustInclude))
    (emptyChunk id description)
  rw [hs]
  simpa [emptyChunk] using hsub

theorem createSingleChunk_must_mem (content : List PrioritizedItem) (availableTokens : ℤ)
    (id description : String) (it : PrioritizedItem) (hmem : it ∈ content)
    (hmust : it.mustInclude = true) :
    it.change ∈ (createSingleChunk content availableTokens id description).changes := by
  unfold createSingleChunk
  refine foldl_single_must_mem availableTokens _ _ it ?_ hmust
  exact List.mem_append_left _ (List.mem_filter.mpr ⟨hmem, hmust⟩)

theorem createSingleChunk_budget (content : List PrioritizedItem) (availableTokens : ℤ)
    (id description : String) (hall : ∀ it ∈ content, it.mustInclude = false) :
    (createSingleChunk content availableTokens id description).changes = []
      ∨ (createSingleChunk content availableTokens id description).tokenEstimate
          ≤ availableTokens := by
  unfold createSingleChunk
  refine foldl_single_budget availableTokens _ _ ?_ (Or.inl rfl)
  intro it hit
  rcases List.mem_append.mp hit with h | h
  · exact hall it (List.mem_filter.mp h).1
  · exact hall it (List.mem_filter.mp h).1

theorem createSingleChunk_nomust_all_fit (content : List PrioritizedItem) (availableTokens : ℤ)
    (id description : String) (hall : ∀ it ∈ content, it.mustInclude = false)
    (hfit : (content.map itemTokens).sum ≤ availableTokens) :
    (createSingleChunk content availableTokens id description).changes
      = content.map (fun it => it.change) := by
  unfold createSingleChunk
  have h1 : content.filter (fun c => c.mustInclude) = [] :=
    List.filter_eq_nil_iff.mpr (by intro a ha; simp [hall a ha])
  have h2 : content.filter (fun c => !c.mustInclude) = content :=
    List.filter_eq_self.mpr (by intro a ha; simp [hall a ha])
  rw [h1, h2, List.nil_append]
  have := foldl_single_all_fit availableTokens content (emptyChunk id description) hall
    (by simpa [emptyChunk] using hfit)
  simpa [emptyChunk] using this

theorem createSingleChunk_count_le (content : List PrioritizedItem) (availableTokens : ℤ)
    (id description : String) (c : CodeChange) :
    (createSingleChunk content availableTokens id description).changes.count c
      ≤ content.countP (fun it => it.change == c) := by
  have hsub := createSingleChunk_sublist content availableTokens id description
  calc (createSingleChunk content availableTokens id description).changes.count c
      ≤ ((content.filter (fun x => x.mustInclude)
          ++ content.filter (fun x => !x.mustInclude)).map (fun it => it.change)).count c :=
        List.Sublist.count_le hsub c
    _ = (content.filter (fun x => x.mustInclude)
          ++ content.filter (fun x => !x.mustInclude)).countP (fun it => it.change == c) := by
        rw [List.count, List.countP_map]
        rfl
    _ = content.countP (fun it => it.change == c) :=
        (List.filter_append_perm _ content).countP_eq _

theorem createSingleChunk_count_ge (content : List PrioritizedItem) (availableTokens : ℤ)
    (id description : String) (c : CodeChange) (it : PrioritizedItem) (hmem : it ∈ content)
    (hc : it.change = c) (hmust : it.mustInclude = true) :
    1 ≤ (createSingleChunk content availableTokens id description).changes.count c := by
  have := createSingleChunk_must_mem content availableTokens id description it hmem hmust
  rw [hc] at this
  exact List.count_pos_iff.mpr this

/-! ## Lemmas: `chunkBySize` -/

theorem chunkBySizeGo_flat (availableTokens : ℤ) :
    ∀ (l : List PrioritizedItem) (ch : Chunk) (n : ℕ),
      flatChanges (chunkBySizeGo availableTokens l ch n)
        = ch.changes ++ l.map (fun it => it.change)
  | [], ch, n => by
    unfold chunkBySizeGo
    split
    · rename_i hempty
      simp [List.isEmpty_iff.mp hempty]
    · simp
  | it :: l, ch, n => by
    unfold chunkBySizeGo
    split
    · rw [flatChanges_cons, chunkBySizeGo_flat availableTokens l _ (n + 1)]
      simp [addItemToChunk, emptyChunk]
    · rw [chunkBySizeGo_flat availableTokens l _ n]
      simp [addItemToChunk]

theorem chunkBySize_flat (content : List PrioritizedItem) (availableTokens : ℤ) :
    flatChanges (chunkBySize content availableTokens) = content.map (fun it => it.change) := by
  unfold chunkBySize
  rw [chunkBySizeGo_flat]
  simp [emptyChunk]

theorem chunkBySizeGo_budget (availableTokens : ℤ) :
    ∀ (l : List PrioritizedItem) (ch : Chunk) (n : ℕ),
      (ch.changes = [] ∨ ch.changes.length = 1 ∨ ch.tokenEstimate ≤ availableTokens) →
      ∀ chunk ∈ chunkBySizeGo availableTokens l ch n,
        chunk.changes.length = 1 ∨ chunk.tokenEstimate ≤ availableTokens
  | [], ch, n, hinv => by
    unfold chunkBySizeGo
    split
    · simp
    · rename_i hne
      intro chunk hchunk
      rw [List.mem_singleton] at hchunk
      subst hchunk
      rcases hinv with h | h
      · exact absurd h (by simpa [List.isEmpty_iff] using hne)
      · exact h
  | it :: l, ch, n, hinv => by
    unfold chunkBySizeGo
    split
    · rename_i hcond
      intro chunk hchunk
      rcases List.mem_cons.mp hchunk with rfl | htail
      · rcases hinv with h | h
        · exact absurd h (by simpa [List.isEmpty_iff] using hcond.2)
        · exact h
      · refine chunkBySizeGo_budget availableTokens l _ (n + 1) ?_ chunk htail
        right; left
        simp [addItemToChunk, emptyChunk]
    · rename_i hcond
      intro chunk hchunk
      refine chunkBySizeGo_budget availableTokens l _ n ?_ chunk hchunk
      rcases Decidable.not_and_iff_or_not.mp hcond with hfit | hne
      · right; right
        simp only [addItemToChunk]
        omega
      · right; left
        have : ch.changes = [] := by
          by_contra hcontra
          exact hne (by simpa [List.isEmpty_iff] using hcontra)
        simp [addItemToChunk, this]

theorem chunkBySize_budget (content : List PrioritizedItem) (availableTokens : ℤ)
    (chunk : Chunk) (hmem : chunk ∈ chunkBySize content availableTokens) :
    chunk.changes.length = 1 ∨ chunk.tokenEstimate ≤ availableTokens := by
  unfold chunkBySize at hmem
  exact chunkBySizeGo_budget availableTokens content _ 1 (Or.inl rfl) chunk hmem

/-! ## Lemmas: `groupByKey` partitions its input -/

@[simp]
theorem groupItems_nil : groupItems [] = [] := rfl

@[simp]
theorem groupItems_cons (g : String × List PrioritizedItem)
    (gs : List (String × List PrioritizedItem)) :
    groupItems (g :: gs) = g.2 ++ groupItems gs := by
  simp [groupItems]

theorem insertGrouped_countP (p : PrioritizedItem → Bool) (key : String)
    (item : PrioritizedItem) :
    ∀ gs : List (String × List PrioritizedItem),
      (groupItems (insertGrouped key item gs)).countP p
        = (groupItems gs).countP p + (if p item then 1 else 0)
  | [] => by simp [insertGrouped, List.countP_cons]
  | (k, g) :: gs => by
    unfold insertGrouped
    split
    · simp [List.countP_append, List.countP_cons]
      omega
    · simp only [groupItems_cons, List.countP_append, insertGrouped_countP p key item gs]
      omega

theorem groupByKey_countP (key : PrioritizedItem → String) (p : PrioritizedItem → Bool) :
    ∀ (content : List PrioritizedItem) (gs : List (String × List PrioritizedItem)),
      (groupItems (content.foldl (fun groups item => insertGrouped (key item) item groups) gs)).countP p
        = (groupItems gs).countP p + content.countP p
  | [], gs => by simp
  | it :: l, gs => by
    simp only [List.foldl_cons, List.countP_cons]
    rw [groupByKey_countP key p l (insertGrouped (key it) it gs), insertGrouped_countP]
    omega

theorem groupByKey_items_countP (key : PrioritizedItem → String) (p : PrioritizedItem → Bool)
    (content : List PrioritizedItem) :
    (groupItems (groupByKey key content)).countP p = content.countP p := by
  unfold groupByKey
  rw [groupByKey_countP]
  simp

theorem insertGrouped_forall (P : PrioritizedItem → Prop) (key : String)
    (item : PrioritizedItem) (hP : P item) :
    ∀ gs : List (String × List PrioritizedItem),
      (∀ g ∈ gs, ∀ it ∈ g.2, P it) →
      ∀ g ∈ insertGrouped key item gs, ∀ it ∈ g.2, P it
  | [], _ => by
    intro g hg it hit
    simp only [insertGrouped, List.mem_singleton] at hg
    subst hg
    simp only [List.mem_singleton] at hit
    subst hit
    exact hP
  | (k, gr) :: gs, hall => by
    intro g hg it hit
    unfold insertGrouped at hg
    split at hg
    · rcases List.mem_cons.mp hg with rfl | htail
      · rcases List.mem_append.mp hit with h | h
        · exact hall (k, gr) (List.mem_cons_self _ _) it h
        · rw [List.mem_singleton] at h
          subst h
          exact hP
      · exact hall g (List.mem_cons_of_mem _ htail) it hit
    · rcases List.mem_cons.mp hg with rfl | htail
      · exact hall (k, gr) (List.mem_cons_self _ _) it hit
      · exact insertGrouped_forall P key item hP gs
          (fun x hx => hall x (List.mem_cons_of_mem _ hx)) g htail it hit

theorem groupByKey_foldl_forall (key : PrioritizedItem → String) (P : PrioritizedItem → Prop) :
    ∀ (content : List PrioritizedItem) (gs : List (String × List PrioritizedItem)),
      (∀ it ∈ content, P it) → (∀ g ∈ gs, ∀ it ∈ g.2, P it) →
      ∀ g ∈ content.foldl (fun groups item => insertGrouped (key item) item groups) gs,
        ∀ it ∈ g.2, P it
  | [], gs, _, hgs => by simpa using hgs
  | it :: l, gs, hcontent, hgs => by
    simp only [List.foldl_cons]
    exact groupByKey_foldl_forall key P l _
      (fun x hx => hcontent x (List.mem_cons_of_mem _ hx))
      (insertGrouped_forall P (key it) it (hcontent it (List.mem_cons_self _ _)) gs hgs)

theorem groupByKey_forall (key : PrioritizedItem → String) (P : PrioritizedItem → Prop)
    (content : List PrioritizedItem) (hcontent : ∀ it ∈ content, P it) :
    ∀ g ∈ groupByKey key content, ∀ it ∈ g.2, P it := by
  unfold groupByKey
  exact groupByKey_foldl_forall key P content [] hcontent (by simp)

/-! ## Lemmas: counting changes across a `filterMap` of group chunks -/

theorem count_flatChanges_filterMap {β : Type} (c : CodeChange) :
    ∀ (gs : List β) (mk : β → Option Chunk),
      (flatChanges (gs.filterMap mk)).count c
        = (gs.map (fun g =>
            match mk g with
            | some ch => ch.changes.count c
            | none => 0)).sum
  | [], _ => rfl
  | g :: gs, mk => by
    rw [List.filterMap_cons]
    cases hmk : mk g with
    | none => simp [hmk, count_flatChanges_filterMap c gs mk]
    | some ch =>
      simp [hmk, List.count_append, count_flatChanges_filterMap c gs mk]

/-! ## Lemmas: priorities are at most 100 -/

theorem getFindingPriority_le (f : AnalysisFinding) : getFindingPriority f ≤ 100 := by
  unfold getFindingPriority
  cases f.severity <;> simp [ContentPriority.CRITICAL_SECURITY, ContentPriority.CRITICAL_BUG,
    ContentPriority.HIGH_SECURITY, ContentPriority.HIGH_BUG, ContentPriority.MEDIUM_ISSUE,
    ContentPriority.LOW_ISSUE] <;> split <;> omega

theorem foldl_priority_le (findings : List AnalysisFinding) :
    ∀ p : ℕ, p ≤ 100 →
      findings.foldl (fun priority f => max priority (getFindingPriority f)) p ≤ 100 := by
  induction findings with
  | nil => intro p hp; simpa using hp
  | cons f l ih =>
    intro p hp
    simp only [List.foldl_cons]
    exact ih _ (max_le hp (getFindingPriority_le f))

theorem calculateChangePriority_le (change : CodeChange) (findings : List AnalysisFinding) :
    calculateChangePriority change findings ≤ 100 := by
  unfold calculateChangePriority
  have h1 := foldl_priority_le findings ContentPriority.CONTEXT (by norm_num [ContentPriority.CONTEXT])
  split <;> split <;>
    simp [ContentPriority.HIGH_SECURITY, ContentPriority.HIGH_BUG] <;> omega

theorem prioritizeOne_must_priority (findings : List AnalysisFinding) (files : List String)
    (change : CodeChange) (hmem : files.contains change.file = true) :
    (prioritizeOne findings (some files) change).priority = 100 := by
  unfold prioritizeOne
  simp only [hmem]
  have := calculateChangePriority_le change (relatedFindingsFor findings change.file)
  simp [ContentPriority.CRITICAL_SECURITY]
  omega

/-! ## Lemmas: counting a change inside one gated group chunk -/

theorem chunkGateCount (g : List PrioritizedItem) (availableTokens : ℤ) (id d : String)
    (c : CodeChange) (hle : g.countP (fun it => it.change == c) ≤ 1)
    (hm : ∀ it ∈ g, it.change = c → it.mustInclude = true) :
    (match (if (createSingleChunk g availableTokens id d).changes.isEmpty then none
        else some (createSingleChunk g availableTokens id d)) with
      | some ch => ch.changes.count c
      | none => 0) = g.countP (fun it => it.change == c) := by
  rcases Nat.le_one_iff_eq_zero_or_eq_one.mp hle with h0 | h1
  · have hcle := createSingleChunk_count_le g availableTokens id d c
    rw [h0] at hcle ⊢
    have hzero : (createSingleChunk g availableTokens id d).changes.count c = 0 :=
      Nat.le_zero.mp hcle
    by_cases hP : (createSingleChunk g availableTokens id d).changes.isEmpty
    · simp [hP]
    · simp [hP, hzero]
  · obtain ⟨it, hmem, hit⟩ := List.countP_pos_iff.mp (h1 ▸ Nat.one_pos)
    have hchange : it.change = c := by simpa using hit
    have hmust := hm it hmem hchange
    have hge := createSingleChunk_count_ge g availableTokens id d c it hmem hchange hmust
    have hcle := createSingleChunk_count_le g availableTokens id d c
    rw [h1] at hcle ⊢
    have hcount : (createSingleChunk g availableTokens id d).changes.count c = 1 :=
      le_antisymm hcle hge
    have hne : ¬(createSingleChunk g availableTokens id d).changes.isEmpty := by
      rw [List.isEmpty_iff]
      intro hcontra
      rw [hcontra] at hcount
      simp at hcount
    simp [hne, hcount]

theorem severityTermCount (gc : List PrioritizedItem) (availableTokens : ℤ) (id d : String)
    (c : CodeChange) (hle : gc.countP (fun it => it.change == c) ≤ 1)
    (hm : ∀ it ∈ gc, it.change = c → it.mustInclude = true) :
    (match (if gc.isEmpty then none
        else if (createSingleChunk gc availableTokens id d).changes.isEmpty then none
        else some (createSingleChunk gc availableTokens id d)) with
      | some ch => ch.changes.count c
      | none => 0) = gc.countP (fun it => it.change == c) := by
  by_cases hgc : gc.isEmpty
  · rw [List.isEmpty_iff] at hgc
    simp [hgc]
  · rw [if_neg hgc]
    exact chunkGateCount gc availableTokens id d c hle hm

/-! ## Lemmas: counting a change across each chunking strategy -/

theorem count_chunkByModule (content : List PrioritizedItem) (availableTokens : ℤ)
    (c : CodeChange) (hle : content.countP (fun it => it.change == c) ≤ 1)
    (hm : ∀ it ∈ content, it.change = c → it.mustInclude = true) :
    (flatChanges (chunkByModule content availableTokens)).count c
      = content.countP (fun it => it.change == c) := by
  unfold chunkByModule
  rw [count_flatChanges_filterMap]
  have hperm : (sortDescBy (fun mg => groupMaxPriority mg.2)
      (groupByKey (fun item => moduleOf item.change.file) content)).Perm
      (groupByKey (fun item => moduleOf item.change.file) content) :=
    sortDescBy_perm _ _
  have hsumg : ((groupByKey (fun item => moduleOf item.change.file) content).map
      (fun g => g.2.countP (fun it => it.change == c))).sum
      = content.countP (fun it => it.change == c) := by
    have := groupByKey_items_countP (fun item => moduleOf item.change.file)
      (fun it => it.change == c) content
    rw [← this]
    unfold groupItems
    rw [List.countP_flatten, List.map_map]
    rfl
  have hforall := groupByKey_forall (fun item => moduleOf item.change.file)
    (fun it => it.change = c → it.mustInclude = true) content hm
  have hpoint : ∀ g ∈ sortDescBy (fun mg => groupMaxPriority mg.2)
      (groupByKey (fun item => moduleOf item.change.file) content),
      (match (if (createSingleChunk g.2 availableTokens ("module-" ++ g.1)
          ("Module: " ++ g.1)).changes.isEmpty then none
        else some (createSingleChunk g.2 availableTokens ("module-" ++ g.1)
          ("Module: " ++ g.1))) with
        | some ch => ch.changes.count c
        | none => 0) = g.2.countP (fun it => it.change == c) := by
    intro g hg
    have hgmem := hperm.mem_iff.mp hg
    have hgle : g.2.countP (fun it => it.change == c) ≤ 1 := by
      refine le_trans ?_ (hsumg ▸ hle)
      exact List.le_sum_of_mem (List.mem_map_of_mem _ hgmem)
    exact chunkGateCount g.2 availableTokens _ _ c hgle (hforall g hgmem)
  calc ((sortDescBy (fun mg => groupMaxPriority mg.2)
        (groupByKey (fun item => moduleOf item.change.file) content)).map
        (fun g => match (if (createSingleChunk g.2 availableTokens ("module-" ++ g.1)
            ("Module: " ++ g.1)).changes.isEmpty then none
          else some (createSingleChunk g.2 availableTokens ("module-" ++ g.1)
            ("Module: " ++ g.1))) with
          | some ch => ch.changes.count c
          | none => 0)).sum
      = ((sortDescBy (fun mg => groupMaxPriority mg.2)
          (groupByKey (fun item => moduleOf item.change.file) content)).map
          (fun g => g.2.countP (fun it => it.change == c))).sum := by
        congr 1
        exact List.map_eq_map_iff.mpr hpoint
    _ = ((groupByKey (fun item => moduleOf item.change.file) content).map
          (fun g => g.2.countP (fun it => it.change == c))).sum :=
        (hperm.map _).sum_eq
    _ = content.countP (fun it => it.change == c) := hsumg

theorem count_chunkByFileType (content : List PrioritizedItem) (availableTokens : ℤ)
    (c : CodeChange) (hle : content.countP (fun it => it.change == c) ≤ 1)
    (hm : ∀ it ∈ content, it.change = c → it.mustInclude = true) :
    (flatChanges (chunkByFileType content availableTokens)).count c
      = content.countP (fun it => it.change == c) := by
  unfold chunkByFileType
  rw [count_flatChanges_filterMap]
  have hsumg : ((groupByKey (fun item => extOf item.change.file) content).map
      (fun g => g.2.countP (fun it => it.change == c))).sum
      = content.countP (fun it => it.change == c) := by
    have := groupByKey_items_countP (fun item => extOf item.change.file)
      (fun it => it.change == c) content
    rw [← this]
    unfold groupItems
    rw [List.countP_flatten, List.map_map]
    rfl
  have hforall := groupByKey_forall (fun item => extOf item.change.file)
    (fun it => it.change = c → it.mustInclude = true) content hm
  have hpoint : ∀ g ∈ groupByKey (fun item => extOf item.change.file) content,
      (match (if (createSingleChunk g.2 availableTokens ("type-" ++ g.1)
          ("File Type: " ++ g.1)).changes.isEmpty then none
        else some (createSingleChunk g.2 availableTokens ("type-" ++ g.1)
          ("File Type: " ++ g.1))) with
        | some ch => ch.changes.count c
        | none => 0) = g.2.countP (fun it => it.change == c) := by
    intro g hg
    have hgle : g.2.countP (fun it => it.change == c) ≤ 1 := by
      refine le_trans ?_ (hsumg ▸ hle)
      exact List.le_sum_of_mem (List.mem_map_of_mem _ hg)
    exact chunkGateCount g.2 availableTokens _ _ c hgle (hforall g hg)
  calc ((groupByKey (fun item => extOf item.change.file) content).map
        (fun g => match (if (createSingleChunk g.2 availableTokens ("type-" ++ g.1)
            ("File Type: " ++ g.1)).changes.isEmpty then none
          else some (createSingleChunk g.2 availableTokens ("type-" ++ g.1)
            ("File Type: " ++ g.1))) with
          | some ch => ch.changes.count c
          | none => 0)).sum
      = ((groupByKey (fun item => extOf item.change.file) content).map
          (fun g => g.2.countP (fun it => it.change == c))).sum := by
        congr 1
        exact List.map_eq_map_iff.mpr hpoint
    _ = content.countP (fun it => it.change == c) := hsumg

@[simp]
theorem flatChanges_append (l1 l2 : List Chunk) :
    flatChanges (l1 ++ l2) = flatChanges l1 ++ flatChanges l2 := by
  simp [flatChanges]

theorem countP_filter_bounds (content : List PrioritizedItem) (c : CodeChange) (lo hi : ℕ)
    (hone : content.countP (fun it => it.change == c) = 1)
    (hp : ∀ it ∈ content, it.change = c → it.priority = 100) :
    (content.filter (fun x => decide (lo ≤ x.priority) && decide (x.priority ≤ hi))).countP
      (fun it => it.change == c) = if lo ≤ 100 ∧ 100 ≤ hi then 1 else 0 := by
  rw [List.countP_filter]
  by_cases hb : lo ≤ 100 ∧ 100 ≤ hi
  · rw [if_pos hb]
    refine le_antisymm ?_ ?_
    · refine le_trans (List.countP_mono_left ?_) (le_of_eq hone)
      intro a _ hpa
      rw [Bool.and_eq_true] at hpa
      exact hpa.1
    · obtain ⟨it, hmem, hit⟩ := List.countP_pos_iff.mp (hone ▸ Nat.one_pos)
      have hchange : it.change = c := by simpa using hit
      have hprio := hp it hmem hchange
      refine List.countP_pos_iff.mpr ⟨it, hmem, ?_⟩
      simp [hchange, hprio, hb.1, hb.2]
  · rw [if_neg hb]
    rw [List.countP_eq_zero]
    intro a ha hpa
    rw [Bool.and_eq_true, Bool.and_eq_true] at hpa
    obtain ⟨h1, h2, h3⟩ := hpa
    have hchange : a.change = c := by simpa using h1
    have hprio := hp a ha hchange
    rw [hprio] at h2 h3
    exact hb ⟨by simpa using h2, by simpa using h3⟩

theorem count_chunkBySeverity (content : List PrioritizedItem) (availableTokens : ℤ)
    (c : CodeChange) (hone : content.countP (fun it => it.change == c) = 1)
    (hm : ∀ it ∈ content, it.change = c → it.mustInclude = true)
    (hp : ∀ it ∈ content, it.change = c → it.priority = 100) :
    (flatChanges (chunkBySeverity content availableTokens)).count c = 2 := by
  unfold chunkBySeverity
  rw [count_flatChanges_filterMap]
  have hterm : ∀ group ∈ priorityGroups,
      (match (if (content.filter (fun x =>
            decide (group.lo ≤ x.priority) && decide (x.priority ≤ group.hi))).isEmpty then none
        else if (createSingleChunk (content.filter (fun x =>
            decide (group.lo ≤ x.priority) && decide (x.priority ≤ group.hi))) availableTokens
            (severityGroupId group.name) group.name).changes.isEmpty then none
        else some (createSingleChunk (content.filter (fun x =>
            decide (group.lo ≤ x.priority) && decide (x.priority ≤ group.hi))) availableTokens
            (severityGroupId group.name) group.name)) with
        | some ch => ch.changes.count c
        | none => 0) = if group.lo ≤ 100 ∧ 100 ≤ group.hi then 1 else 0 := by
    intro group _
    have hfilter := countP_filter_bounds content c group.lo group.hi hone hp
    have hle2 : (content.filter (fun x =>
        decide (group.lo ≤ x.priority) && decide (x.priority ≤ group.hi))).countP
        (fun it => it.change == c) ≤ 1 := by
      rw [hfilter]
      split <;> norm_num
    have hmf : ∀ it ∈ content.filter (fun x =>
        decide (group.lo ≤ x.priority) && decide (x.priority ≤ group.hi)),
        it.change = c → it.mustInclude = true :=
      fun it hit => hm it (List.mem_filter.mp hit).1
    rw [severityTermCount _ availableTokens _ _ c hle2 hmf, hfilter]
  rw [List.map_eq_map_iff.mpr hterm]
  decide

theorem count_smartChunk (content : List PrioritizedItem) (availableTokens : ℤ)
    (c : CodeChange) (hone : content.countP (fun it => it.change == c) = 1)
    (hm : ∀ it ∈ content, it.change = c → it.mustInclude = true) :
    (flatChanges (smartChunk content availableTokens)).count c = 1 := by
  obtain ⟨it, hmem, hit⟩ := List.countP_pos_iff.mp (hone ▸ Nat.one_pos)
  have hchange : it.change = c := by simpa using hit
  have hmust := hm it hmem hchange
  have hitcrit : it ∈ content.filter (fun x =>
      x.mustInclude || decide (ContentPriority.CRITICAL_BUG ≤ x.priority)) :=
    List.mem_filter.mpr ⟨hmem, by simp [hmust]⟩
  have hcritle : (content.filter (fun x =>
      x.mustInclude || decide (ContentPriority.CRITICAL_BUG ≤ x.priority))).countP
      (fun x => x.change == c) ≤ 1 := by
    rw [List.countP_filter]
    refine le_trans (List.countP_mono_left ?_) (le_of_eq hone)
    intro a _ hpa
    rw [Bool.and_eq_true] at hpa
    exact hpa.1
  have hcount : (createSingleChunk (content.filter (fun x =>
      x.mustInclude || decide (ContentPriority.CRITICAL_BUG ≤ x.priority))) availableTokens
      "critical" "Critical Issues").changes.count c = 1 := by
    refine le_antisymm (le_trans (createSingleChunk_count_le _ _ _ _ c) hcritle) ?_
    exact createSingleChunk_count_ge _ _ _ _ c it hitcrit hchange hmust
  have hremzero : (content.filter (fun x =>
      !x.mustInclude && decide (x.priority < ContentPriority.CRITICAL_BUG))).countP
      (fun x => x.change == c) = 0 := by
    rw [List.countP_filter, List.countP_eq_zero]
    intro a ha hpa
    rw [Bool.and_eq_true, Bool.and_eq_true] at hpa
    obtain ⟨h1, h2, _⟩ := hpa
    have hc2 : a.change = c := by simpa using h1
    have := hm a ha hc2
    rw [this] at h2
    simp at h2
  have hmodcount := count_chunkByModule (content.filter (fun x =>
      !x.mustInclude && decide (x.priority < ContentPriority.CRITICAL_BUG))) availableTokens c
    (by rw [hremzero]; norm_num)
    (fun a ha => hm a (List.mem_filter.mp ha).1)
  unfold smartChunk
  rw [flatChanges_append, List.count_append, hmodcount, hremzero]
  have hne : ¬(content.filter (fun x =>
      x.mustInclude || decide (ContentPriority.CRITICAL_BUG ≤ x.priority))).isEmpty := by
    rw [List.isEmpty_iff]
    intro hcontra
    rw [hcontra] at hitcrit
    exact absurd hitcrit (List.not_mem_nil it)
  rw [if_neg hne]
  have hchne : ¬(createSingleChunk (content.filter (fun x =>
      x.mustInclude || decide (ContentPriority.CRITICAL_BUG ≤ x.priority))) availableTokens
      "critical" "Critical Issues").changes.isEmpty := by
    rw [List.isEmpty_iff]
    intro hcontra
    rw [hcontra] at hcount
    simp at hcount
  rw [if_neg hchne]
  simp [hcount]

/-! ## Lemmas: facts about `prioritizeContent` -/

theorem prioritizeContent_none_mustInclude (changes : List CodeChange)
    (findings : List AnalysisFinding) :
    ∀ it ∈ prioritizeContent changes findings none, it.mustInclude = false := by
  intro it hit
  have hperm := sortDescBy_perm (fun item => item.priority)
    (changes.map (prioritizeOne findings none))
  have hmap := hperm.mem_iff.mp hit
  obtain ⟨ch, _, rfl⟩ := List.mem_map.mp hmap
  rfl

theorem prioritizeContent_force_countP (changes : List CodeChange)
    (findings : List AnalysisFinding) (force : Option (List String)) (c : CodeChange) :
    (prioritizeContent changes findings force).countP (fun it => it.change == c)
      = changes.countP (fun x => x == c) := by
  unfold prioritizeContent
  rw [(sortDescBy_perm _ _).countP_eq, List.countP_map]
  rfl

theorem prioritizeContent_force_facts (changes : List CodeChange)
    (findings : List AnalysisFinding) (files : List String) (c : CodeChange)
    (hfile : files.contains c.file = true) :
    ∀ it ∈ prioritizeContent changes findings (some files),
      it.change = c → it.mustInclude = true ∧ it.priority = 100 := by
  intro it hit hchange
  have hperm := sortDescBy_perm (fun item => item.priority)
    (changes.map (prioritizeOne findings (some files)))
  have hmap := hperm.mem_iff.mp hit
  obtain ⟨ch, _, rfl⟩ := List.mem_map.mp hmap
  have hch : ch = c := hchange
  subst hch
  constructor
  · show (prioritizeOne findings (some files) ch).mustInclude = true
    unfold prioritizeOne
    simpa using hfile
  · exact prioritizeOne_must_priority findings files ch hfile

/-! ## Lemmas: verdict merging -/

theorem overallVerdictOf_eq_ite (verdicts : List Verdict) :
    overallVerdictOf verdicts
      = if Verdict.requestChanges ∈ verdicts then Verdict.requestChanges
        else if Verdict.comment ∈ verdicts then Verdict.comment
        else Verdict.approve := by
  unfold overallVerdictOf
  simp [List.elem_eq_mem]

theorem overallVerdictOf_eq_dominant (verdicts : List Verdict) :
    overallVerdictOf verdicts = dominantVerdict verdicts := by
  induction verdicts with
  | nil => rfl
  | cons v l ih =>
    rw [dominantVerdict, List.foldr_cons, ← dominantVerdict, ← ih]
    rw [overallVerdictOf_eq_ite, overallVerdictOf_eq_ite]
    by_cases h1 : Verdict.requestChanges ∈ l <;> by_cases h2 : Verdict.comment ∈ l <;>
      cases v <;>
      simp [List.mem_cons, h1, h2, maxVerdict, Verdict.rank]

theorem overallVerdictOf_perm (l1 l2 : List Verdict) (h : l1.Perm l2) :
    overallVerdictOf l1 = overallVerdictOf l2 := by
  rw [overallVerdictOf_eq_ite, overallVerdictOf_eq_ite]
  simp only [h.mem_iff]

theorem mergeManyReviews_verdict (reviews : List Review) (analysis : AnalysisResult) :
    (mergeManyReviews reviews analysis).summary.verdict
      = overallVerdictOf (reviews.map (fun r => r.summary.verdict)) := rfl

/-! ## Lemmas: the chunk loop -/

@[simp]
theorem recordedCost_zero (outcomes : List (Option Review)) : recordedCost outcomes 0 = 0 := by
  simp [recordedCost]

@[simp]
theorem recordedCost_nil (k : ℕ) : recordedCost [] k = 0 := by
  simp [recordedCost]

theorem recordedCost_cons_none (rest : List (Option Review)) (k : ℕ) :
    recordedCost (none :: rest) (k + 1) = recordedCost rest k := by
  simp [recordedCost]

theorem recordedCost_cons_some (r : Review) (rest : List (Option Review)) (k : ℕ) :
    recordedCost (some r :: rest) (k + 1) = r.usage.estimatedCost + recordedCost rest k := by
  simp [recordedCost]

theorem chunkLoop_dispatch_bound (L : ℚ) (hL : 0 < L) :
    ∀ (outcomes : List (Option Review)) (total : ℚ) (k : ℕ), total ≤ L →
      L < total + recordedCost outcomes k →
      (chunkLoop (some L) outcomes total).dispatched ≤ k
  | [], total, k, htot, hover => by
    rw [recordedCost_nil] at hover
    exact absurd hover (by linarith)
  | none :: rest, total, k, htot, hover => by
    cases k with
    | zero =>
      rw [recordedCost_zero] at hover
      exact absurd hover (by linarith)
    | succ k =>
      rw [recordedCost_cons_none] at hover
      have := chunkLoop_dispatch_bound L hL rest total k htot hover
      simp only [chunkLoop]
      omega
  | some r :: rest, total, k, htot, hover => by
    cases k with
    | zero =>
      rw [recordedCost_zero] at hover
      exact absurd hover (by linarith)
    | succ k =>
      rw [recordedCost_cons_some] at hover
      simp only [chunkLoop]
      by_cases hhit : costLimitHit (some L) (total + r.usage.estimatedCost)
      · rw [if_pos hhit]
        show 1 ≤ k + 1
        omega
      · rw [if_neg hhit]
        have hLne : (L == (0 : ℚ)) = false := by
          simp only [beq_eq_false_iff_ne, ne_eq]
          exact ne_of_gt hL
        have hle : total + r.usage.estimatedCost ≤ L := by
          simp only [costLimitHit, hLne] at hhit
          simp at hhit
          linarith
        have hrec := chunkLoop_dispatch_bound L hL rest (total + r.usage.estimatedCost) k hle
          (by linarith)
        show (chunkLoop (some L) rest (total + r.usage.estimatedCost)).dispatched + 1 ≤ k + 1
        omega

theorem chunkLoop_reviews_ne_nil (costLimit : Option ℚ) :
    ∀ (outcomes : List (Option Review)) (total : ℚ),
      (chunkLoop costLimit outcomes total).dispatched < outcomes.length →
      (chunkLoop costLimit outcomes total).reviews ≠ []
  | [], total, h => by simp [chunkLoop] at h
  | none :: rest, total, h => by
    simp only [chunkLoop, List.length_cons] at h ⊢
    exact chunkLoop_reviews_ne_nil costLimit rest total (by omega)
  | some r :: rest, total, h => by
    simp only [chunkLoop] at h ⊢
    split
    · simp
    · simp

theorem chunkLoop_reviews_nil_iff (costLimit : Option ℚ) :
    ∀ (outcomes : List (Option Review)) (total : ℚ),
      (chunkLoop costLimit outcomes total).reviews = [] ↔ ∀ o ∈ outcomes, o = none
  | [], total => by simp [chunkLoop]
  | none :: rest, total => by
    simp only [chunkLoop]
    rw [chunkLoop_reviews_nil_iff costLimit rest total]
    simp
  | some r :: rest, total => by
    simp only [chunkLoop]
    constructor
    · intro h
      split at h <;> simp at h
    · intro h
      exact absurd (h (some r) (List.mem_cons_self _ _)) (by simp)

theorem mergeChunkReviews_ok_of_ne_nil (reviews : List Review) (analysis : AnalysisResult)
    (h : reviews ≠ []) : ∃ r, mergeChunkReviews reviews analysis = .ok r := by
  match reviews with
  | [] => exact absurd rfl h
  | [r] => exact ⟨r, rfl⟩
  | r0 :: r1 :: rest => exact ⟨mergeManyReviews (r0 :: r1 :: rest) analysis, rfl⟩

/-! ## Lemmas: budget conformance of each strategy without forced items -/

theorem chunkBySeverity_budget (content : List PrioritizedItem) (availableTokens : ℤ)
    (hall : ∀ it ∈ content, it.mustInclude = false) :
    ∀ chunk ∈ chunkBySeverity content availableTokens,
      chunk.tokenEstimate ≤ availableTokens := by
  intro chunk hchunk
  unfold chunkBySeverity at hchunk
  obtain ⟨group, _, hmk⟩ := List.mem_filterMap.mp hchunk
  dsimp only at hmk
  split at hmk
  · exact absurd hmk (by simp)
  · split at hmk
    · exact absurd hmk (by simp)
    · rename_i hne
      rw [Option.some_inj] at hmk
      subst hmk
      have hfall : ∀ it ∈ content.filter (fun x =>
          decide (group.lo ≤ x.priority) && decide (x.priority ≤ group.hi)),
          it.mustInclude = false :=
        fun it hit => hall it (List.mem_filter.mp hit).1
      rcases createSingleChunk_budget _ availableTokens (severityGroupId group.name)
        group.name hfall with h | h
      · exact absurd h (by simpa [List.isEmpty_iff] using hne)
      · exact h

theorem chunkByModule_budget (content : List PrioritizedItem) (availableTokens : ℤ)
    (hall : ∀ it ∈ content, it.mustInclude = false) :
    ∀ chunk ∈ chunkByModule content availableTokens,
      chunk.tokenEstimate ≤ availableTokens := by
  intro chunk hchunk
  unfold chunkByModule at hchunk
  obtain ⟨mg, hmg, hmk⟩ := List.mem_filterMap.mp hchunk
  dsimp only at hmk
  split at hmk
  · exact absurd hmk (by simp)
  · rename_i hne
    rw [Option.some_inj] at hmk
    subst hmk
    have hgmem := (sortDescBy_perm (fun x => groupMaxPriority x.2)
      (groupByKey (fun item => moduleOf item.change.file) content)).mem_iff.mp hmg
    have hfall : ∀ it ∈ mg.2, it.mustInclude = false :=
      groupByKey_forall (fun item => moduleOf item.change.file)
        (fun it => it.mustInclude = false) content hall mg hgmem
    rcases createSingleChunk_budget mg.2 availableTokens ("module-" ++ mg.1)
      ("Module: " ++ mg.1) hfall with h | h
    · exact absurd h (by simpa [List.isEmpty_iff] using hne)
    · exact h

theorem chunkByFileType_budget (content : List PrioritizedItem) (availableTokens : ℤ)
    (hall : ∀ it ∈ content, it.mustInclude = false) :
    ∀ chunk ∈ chunkByFileType content availableTokens,
      chunk.tokenEstimate ≤ availableTokens := by
  intro chunk hchunk
  unfold chunkByFileType at hchunk
  obtain ⟨tg, htg, hmk⟩ := List.mem_filterMap.mp hchunk
  dsimp only at hmk
  split at hmk
  · exact absurd hmk (by simp)
  · rename_i hne
    rw [Option.some_inj] at hmk
    subst hmk
    have hfall : ∀ it ∈ tg.2, it.mustInclude = false :=
      groupByKey_forall (fun item => extOf item.change.file)
        (fun it => it.mustInclude = false) content hall tg htg
    rcases createSingleChunk_budget tg.2 availableTokens ("type-" ++ tg.1)
      ("File Type: " ++ tg.1) hfall with h | h
    · exact absurd h (by simpa [List.isEmpty_iff] using hne)
    · exact h

theorem smartChunk_budget (content : List PrioritizedItem) (availableTokens : ℤ)
    (hall : ∀ it ∈ content, it.mustInclude = false) :
    ∀ chunk ∈ smartChunk content availableTokens,
      chunk.tokenEstimate ≤ availableTokens := by
  intro chunk hchunk
  unfold smartChunk at hchunk
  rcases List.mem_append.mp hchunk with hcrit | hmod
  · have hfall : ∀ it ∈ content.filter (fun x =>
        x.mustInclude || decide (ContentPriority.CRITICAL_BUG ≤ x.priority)),
        it.mustInclude = false :=
      fun it hit => hall it (List.mem_filter.mp hit).1
    split at hcrit
    · exact absurd hcrit (List.not_mem_nil chunk)
    · dsimp only at hcrit
      split at hcrit
      · exact absurd hcrit (List.not_mem_nil chunk)
      · rename_i hne
        rw [List.mem_singleton] at hcrit
        subst hcrit
        rcases createSingleChunk_budget _ availableTokens "critical" "Critical Issues"
          hfall with h | h
        · exact absurd h (by simpa [List.isEmpty_iff] using hne)
        · exact h
  · exact chunkByModule_budget _ availableTokens
      (fun it hit => hall it (List.mem_filter.mp hit).1) chunk hmod

/-! ## Claims -/

/-- C1 (amended): for every configuration, change set and findings with no
force-included files, every chunk produced by `analyzeAndChunk` has
`tokenEstimate ≤ B` (the available token budget) — except that, under the
size-based strategy, a chunk may exceed the budget when it contains exactly
one change (a single oversized item is given its own over-budget chunk). -/
theorem C1_budget_conformance (config : ContextWindowConfig) (changes : List CodeChange)
    (findings : List AnalysisFinding) (options : AnalyzeOptions)
    (hforce : options.forceIncludeFiles = none) :
    ∀ chunk ∈ (analyzeAndChunk config changes findings options).chunks,
      chunk.tokenEstimate ≤ availableBudget config options ∨ chunk.changes.length = 1 := by
  intro chunk hchunk
  have hall : ∀ it ∈ prioritizeContent changes findings options.forceIncludeFiles,
      it.mustInclude = false := by
    rw [hforce]
    exact prioritizeContent_none_mustInclude changes findings
  unfold analyzeAndChunk createChunks at hchunk
  dsimp only at hchunk
  cases hstrat : options.strategy.getD (recommendChunkStrategy changes findings) with
  | bySeverity =>
    rw [hstrat] at hchunk
    exact Or.inl (chunkBySeverity_budget _ _ hall chunk hchunk)
  | byModule =>
    rw [hstrat] at hchunk
    exact Or.inl (chunkByModule_budget _ _ hall chunk hchunk)
  | byFileType =>
    rw [hstrat] at hchunk
    exact Or.inl (chunkByFileType_budget _ _ hall chunk hchunk)
  | smart =>
    rw [hstrat] at hchunk
    exact Or.inl (smartChunk_budget _ _ hall chunk hchunk)
  | bySize =>
    rw [hstrat] at hchunk
    rcases chunkBySize_budget _ _ chunk hchunk with h | h
    · exact Or.inr h
    · exact Or.inl h

/-- Witness for C1: the amended statement applied to a concrete run. -/
theorem C1_witness :
    c1Chunk ∈ (analyzeAndChunk cfgZero [mkChange "a" ChangeType.modified] []
        ⟨none, none, none⟩).chunks
      ∧ (c1Chunk.tokenEstimate ≤ availableBudget cfgZero ⟨none, none, none⟩
        ∨ c1Chunk.changes.length = 1) :=
  ⟨by decide, C1_budget_conformance cfgZero [mkChange "a" ChangeType.modified] []
    ⟨none, none, none⟩ rfl c1Chunk (by decide)⟩

/-- Counterexample to C1 as stated: with no forced files and an available
budget of 0, the planner still produces one chunk, and that chunk's token
estimate (50) exceeds the budget. -/
theorem C1_counterexample :
    (analyzeAndChunk cfgZero [mkChange "a" ChangeType.modified] []
        ⟨none, none, none⟩).chunks.length = 1
      ∧ ((analyzeAndChunk cfgZero [mkChange "a" ChangeType.modified] []
        ⟨none, none, none⟩).chunks.countP
          (fun ch => decide (ch.tokenEstimate ≤ availableBudget cfgZero ⟨none, none, none⟩)))
        = 0 := by
  constructor
  · decide
  · decide

/-- C6 (amended): `createSingleChunk` fills a chunk with must-include items
first and then the remaining (already priority-sorted) items in order;
a must-include item is always inserted, an item is otherwise added exactly
when it fits (`chunk.tokenEstimate + itemTokens ≤ budget`), and a non-fitting
non-forced item is dropped rather than moved to a new chunk — only the
size-based strategy closes the chunk and starts a new one, so only there is
no item ever dropped. -/
theorem C6_fill_and_drop (content : List PrioritizedItem) (availableTokens : ℤ)
    (id description : String) :
    (∀ it ∈ content, it.mustInclude = true →
        it.change ∈ (createSingleChunk content availableTokens id description).changes)
      ∧ (createSingleChunk content availableTokens id description).changes.Sublist
          ((content.filter (fun x => x.mustInclude)
            ++ content.filter (fun x => !x.mustInclude)).map (fun it => it.change))
      ∧ ((∀ it ∈ content, it.mustInclude = false) →
          (content.map itemTokens).sum ≤ availableTokens →
          (createSingleChunk content availableTokens id description).changes
            = content.map (fun it => it.change))
      ∧ (∀ content2 : List PrioritizedItem,
          flatChanges (chunkBySize content2 availableTokens)
            = content2.map (fun it => it.change)) :=
  ⟨fun it hmem hmust =>
      createSingleChunk_must_mem content availableTokens id description it hmem hmust,
    createSingleChunk_sublist content availableTokens id description,
    fun hall hfit =>
      createSingleChunk_nomust_all_fit content availableTokens id description hall hfit,
    fun content2 => chunkBySize_flat content2 availableTokens⟩

/-- Witness for C6: a must-include item is inserted even under a zero budget. -/
theorem C6_witness :
    c6Item.change ∈ (createSingleChunk [c6Item] 0 "critical" "Critical Issues").changes :=
  (C6_fill_and_drop [c6Item] 0 "critical" "Critical Issues").1 c6Item
    (List.mem_singleton.mpr rfl) rfl

/-- Counterexample to C6 as stated: under the module strategy with a budget
of 60, the second 50-token change of module `a` does not fit, and instead of
being moved to a new chunk it is dropped from the output entirely. -/
theorem C6_counterexample :
    flatChanges (analyzeAndChunk cfgSixty
        [mkChange "a/x.js" ChangeType.modified, mkChange "a/y.js" ChangeType.modified] []
        ⟨some .byModule, none, none⟩).chunks = [mkChange "a/x.js" ChangeType.modified]
      ∧ mkChange "a/y.js" ChangeType.modified ∉ flatChanges (analyzeAndChunk cfgSixty
        [mkChange "a/x.js" ChangeType.modified, mkChange "a/y.js" ChangeType.modified] []
        ⟨some .byModule, none, none⟩).chunks := by
  constructor
  · decide
  · decide

/-- C7: `analyzeAndChunk` (with its token estimation) is a pure function of
its configuration, changes, findings and options: two runs on equal inputs
yield equal outputs (same chunks, same grouping, same order). -/
theorem C7_determinism (config1 config2 : ContextWindowConfig)
    (changes1 changes2 : List CodeChange) (findings1 findings2 : List AnalysisFinding)
    (options1 options2 : AnalyzeOptions) (hc : config1 = config2) (hch : changes1 = changes2)
    (hf : findings1 = findings2) (ho : options1 = options2) :
    analyzeAndChunk config1 changes1 findings1 options1
      = analyzeAndChunk config2 changes2 findings2 options2 := by
  subst hc
  subst hch
  subst hf
  subst ho
  rfl

/-- Witness for C7 at a concrete input. -/
theorem C7_witness :
    analyzeAndChunk cfgZero [mkChange "a" ChangeType.modified] [] ⟨none, none, none⟩
      = analyzeAndChunk cfgZero [mkChange "a" ChangeType.modified] [] ⟨none, none, none⟩ :=
  C7_determinism cfgZero cfgZero [mkChange "a" ChangeType.modified]
    [mkChange "a" ChangeType.modified] [] [] ⟨none, none, none⟩ ⟨none, none, none⟩
    rfl rfl rfl rfl

/-- C10: the size-based strategy partitions its input exactly — concatenating
the changes of the produced chunks, in chunk order, gives back exactly the
prioritised input changes in their (descending-priority) order, so nothing is
dropped or duplicated, even when a single item exceeds the budget. -/
theorem C10_size_partition (content : List PrioritizedItem) (availableTokens : ℤ) :
    flatChanges (chunkBySize content availableTokens) = content.map (fun it => it.change) :=
  chunkBySize_flat content availableTokens

/-- C2 (amended): a change whose file is force-included, and which occurs
exactly once in the input, appears in exactly one chunk of the output under
the size, module, file-type and smart strategies; under the severity
strategy the overlapping priority windows `[90, 110]` and `[80, 100]` both
capture its boosted priority of 100, so it appears in exactly two chunks. -/
theorem C2_forced_inclusion (config : ContextWindowConfig) (changes : List CodeChange)
    (findings : List AnalysisFinding) (options : AnalyzeOptions) (c : CodeChange)
    (files : List String) (hforce : options.forceIncludeFiles = some files)
    (hfile : files.contains c.file = true)
    (hcount : changes.countP (fun x => x == c) = 1) :
    (flatChanges (analyzeAndChunk config changes findings options).chunks).count c
      = if options.strategy.getD (recommendChunkStrategy changes findings)
          = ChunkStrategy.bySeverity then 2 else 1 := by
  have hPone : (prioritizeContent changes findings (some files)).countP
      (fun it => it.change == c) = 1 := by
    rw [prioritizeContent_force_countP]
    exact hcount
  have hfacts := prioritizeContent_force_facts changes findings files c hfile
  have hm : ∀ it ∈ prioritizeContent changes findings (some files),
      it.change = c → it.mustInclude = true :=
    fun it h1 h2 => (hfacts it h1 h2).1
  have hp : ∀ it ∈ prioritizeContent changes findings (some files),
      it.change = c → it.priority = 100 :=
    fun it h1 h2 => (hfacts it h1 h2).2
  unfold analyzeAndChunk createChunks
  dsimp only
  rw [hforce]
  cases hstrat : options.strategy.getD (recommendChunkStrategy changes findings) with
  | bySeverity =>
    rw [if_pos rfl]
    exact count_chunkBySeverity _ _ c hPone hm hp
  | byModule =>
    rw [if_neg (by decide)]
    rw [count_chunkByModule _ _ c (le_of_eq hPone) hm]
    exact hPone
  | byFileType =>
    rw [if_neg (by decide)]
    rw [count_chunkByFileType _ _ c (le_of_eq hPone) hm]
    exact hPone
  | smart =>
    rw [if_neg (by decide)]
    exact count_smartChunk _ _ c hPone hm
  | bySize =>
    rw [if_neg (by decide)]
    rw [chunkBySize_flat]
    calc ((prioritizeContent changes findings (some files)).map (fun it => it.change)).count c
        = (prioritizeContent changes findings (some files)).countP
            (fun it => it.change == c) := by
          rw [List.count, List.countP_map]
          rfl
      _ = 1 := hPone

/-- Witness for C2: a forced change appears exactly once under the size
strategy. -/
theorem C2_witness :
    (flatChanges (analyzeAndChunk cfgZero [mkChange "f.js" ChangeType.modified] []
        ⟨some .bySize, none, some ["f.js"]⟩).chunks).count (mkChange "f.js" ChangeType.modified)
      = if (AnalyzeOptions.mk (some .bySize) none (some ["f.js"])).strategy.getD
          (recommendChunkStrategy [mkChange "f.js" ChangeType.modified] [])
          = ChunkStrategy.bySeverity then 2 else 1 :=
  C2_forced_inclusion cfgZero [mkChange "f.js" ChangeType.modified] []
    ⟨some .bySize, none, some ["f.js"]⟩ (mkChange "f.js" ChangeType.modified) ["f.js"]
    rfl (by decide) (by decide)

/-- Counterexample to C2 as stated: under the severity strategy a forced
change lands in two chunks (the overlapping `Critical Security` and
`High Security` priority windows), not exactly one. -/
theorem C2_counterexample :
    ((analyzeAndChunk cfgZero [mkChange "f.js" ChangeType.modified] []
        ⟨some .bySeverity, none, some ["f.js"]⟩).chunks.countP
      (fun ch => ch.changes.contains (mkChange "f.js" ChangeType.modified))) = 2
      ∧ (flatChanges (analyzeAndChunk cfgZero [mkChange "f.js" ChangeType.modified] []
        ⟨some .bySeverity, none, some ["f.js"]⟩).chunks).count
          (mkChange "f.js" ChangeType.modified) = 2 := by
  constructor
  · decide
  · decide

/-- Without force-included files, the priority of a prioritised item is its
computed change priority. -/
theorem prioritizeOne_none_priority (findings : List AnalysisFinding) (change : CodeChange) :
    (prioritizeOne findings none change).priority
      = calculateChangePriority change (relatedFindingsFor findings change.file) := rfl

/-- Helper bound: a fold of finding priorities stays below a bound that
dominates the start and every finding priority. -/
theorem foldl_priority_le_of (findings : List AnalysisFinding) (b : ℕ)
    (hb : ∀ f ∈ findings, getFindingPriority f ≤ b) :
    ∀ p : ℕ, p ≤ b →
      findings.foldl (fun priority f => max priority (getFindingPriority f)) p ≤ b := by
  induction findings with
  | nil => intro p hp; simpa using hp
  | cons f l ih =>
    intro p hp
    simp only [List.foldl_cons]
    exact ih (fun g hg => hb g (List.mem_cons_of_mem f hg)) _
      (max_le hp (hb f (List.mem_cons_self f l)))

/-- C8 (amended): when the `auth.js` change is an added file, it matches the
security-sensitive filename patterns, receives priority 90, and is ordered
ahead of an equally-sized `utils.js` change with only low-severity findings
(priority at most 40); the boost applies only to added files. -/
theorem C8_priority_override (hunksA hunksU : List DiffHunk) (langA langU : Option String)
    (ctU : ChangeType) (lfs : List AnalysisFinding)
    (hlow : ∀ f ∈ lfs, f.severity = Severity.low)
    (hfile : ∀ f ∈ lfs, f.file = "utils.js") :
    calculateChangePriority
        { file := "utils.js", language := langU, changeType := ctU, hunks := hunksU }
        (relatedFindingsFor lfs "utils.js")
      < calculateChangePriority
        { file := "auth.js", language := langA, changeType := ChangeType.added, hunks := hunksA }
        (relatedFindingsFor lfs "auth.js")
    ∧ (prioritizeContent
        [{ file := "utils.js", language := langU, changeType := ctU, hunks := hunksU },
          { file := "auth.js", language := langA, changeType := ChangeType.added,
            hunks := hunksA }] lfs none).map (fun it => it.change.file)
        = ["auth.js", "utils.js"] := by
  have hsa : isSecuritySensitiveFile "auth.js" = true := by decide
  have hca : isCriticalFile "auth.js" = false := by decide
  have hsu : isSecuritySensitiveFile "utils.js" = false := by decide
  have hcu : isCriticalFile "utils.js" = false := by decide
  have hA : calculateChangePriority
      { file := "auth.js", language := langA, changeType := ChangeType.added, hunks := hunksA }
      (relatedFindingsFor lfs "auth.js") = 90 := by
    have hrel : relatedFindingsFor lfs "auth.js" = [] := by
      unfold relatedFindingsFor
      refine List.filter_eq_nil_iff.mpr ?_
      intro f hf
      rw [hfile f hf]
      decide
    rw [hrel]
    unfold calculateChangePriority
    simp [hsa, hca, ContentPriority.CONTEXT, ContentPriority.HIGH_SECURITY]
  have hU : calculateChangePriority
      { file := "utils.js", language := langU, changeType := ctU, hunks := hunksU }
      (relatedFindingsFor lfs "utils.js") ≤ 40 := by
    unfold calculateChangePriority
    have hfold : (relatedFindingsFor lfs "utils.js").foldl
        (fun priority f => max priority (getFindingPriority f)) ContentPriority.CONTEXT ≤ 40 := by
      refine foldl_priority_le_of _ 40 ?_ _ (by norm_num [ContentPriority.CONTEXT])
      intro f hf
      have hmem : f ∈ lfs := (List.mem_filter.mp hf).1
      unfold getFindingPriority
      rw [hlow f hmem]
      norm_num [ContentPriority.LOW_ISSUE]
    simp only [hsu, hcu]
    simp [hfold]
  constructor
  · omega
  · have hlt : (prioritizeOne lfs none
        { file := "utils.js", language := langU, changeType := ctU, hunks := hunksU }).priority
        < (prioritizeOne lfs none
        { file := "auth.js", language := langA, changeType := ChangeType.added,
          hunks := hunksA }).priority := by
      rw [prioritizeOne_none_priority, prioritizeOne_none_priority]
      dsimp only
      omega
    simp only [prioritizeContent, List.map_cons, List.map_nil, sortDescBy, insertDescBy]
    rw [if_pos hlt]
    rfl

/-- Witness for C8: the amended statement at one concrete input. -/
theorem C8_witness :
    calculateChangePriority
        { file := "utils.js", language := none, changeType := ChangeType.modified, hunks := [] }
        (relatedFindingsFor [lowFinding] "utils.js")
      < calculateChangePriority
        { file := "auth.js", language := none, changeType := ChangeType.added, hunks := [] }
        (relatedFindingsFor [lowFinding] "auth.js")
    ∧ (prioritizeContent
        [{ file := "utils.js", language := none, changeType := ChangeType.modified,
            hunks := [] },
          { file := "auth.js", language := none, changeType := ChangeType.added,
            hunks := [] }] [lowFinding] none).map (fun it => it.change.file)
        = ["auth.js", "utils.js"] :=
  C8_priority_override [] [] none none ChangeType.modified [lowFinding]
    (by intro f hf; rw [List.mem_singleton] at hf; rw [hf]; rfl)
    (by intro f hf; rw [List.mem_singleton] at hf; rw [hf]; rfl)

/-- Counterexample to C8 as stated: for a modified (not added) `auth.js`
change the security-filename boost does not apply, so the `utils.js` change
with a low-severity finding outranks it and is ordered first. -/
theorem C8_counterexample :
    calculateChangePriority (mkChange "auth.js" ChangeType.modified)
        (relatedFindingsFor [lowFinding] "auth.js") = 20
      ∧ calculateChangePriority (mkChange "utils.js" ChangeType.modified)
        (relatedFindingsFor [lowFinding] "utils.js") = 40
      ∧ (prioritizeContent [mkChange "auth.js" ChangeType.modified,
            mkChange "utils.js" ChangeType.modified] [lowFinding] none).map
          (fun it => it.change.file) = ["utils.js", "auth.js"] := by
  refine ⟨by decide, by decide, by decide⟩

/-- C3 (amended): for a positive configured cost ceiling, once the
cumulative recorded cost is strictly greater than the ceiling, no further
chunk is dispatched in that run — if the recorded cost of the first `k`
chunks already exceeds the ceiling, at most `k` chunks are ever dispatched
(reaching the ceiling exactly does not stop dispatch: the source tests
`totalCost > costLimit`, strictly, after each successful dispatch). -/
theorem C3_cost_gate (outcomes : List (Option Review)) (L : ℚ) (hL : 0 < L) (k : ℕ)
    (hover : L < recordedCost outcomes k) :
    numDispatched outcomes (some L) ≤ k := by
  unfold numDispatched
  refine chunkLoop_dispatch_bound L hL outcomes 0 k (le_of_lt hL) ?_
  simpa using hover

/-- Witness for C3: a chunk costing 6 against a ceiling of 5 stops dispatch
after the first chunk. -/
theorem C3_witness :
    (0 : ℚ) < 5
      ∧ (5 : ℚ) < recordedCost [some (sampleReview Verdict.approve 6)] 1
      ∧ numDispatched [some (sampleReview Verdict.approve 6)] (some 5) ≤ 1 := by
  have hcost : (5 : ℚ) < recordedCost [some (sampleReview Verdict.approve 6)] 1 := by
    norm_num [recordedCost, sampleReview, sampleUsage, List.filterMap_cons]
  exact ⟨by norm_num, hcost, C3_cost_gate [some (sampleReview Verdict.approve 6)] 5
    (by norm_num) 1 hcost⟩

/-- Counterexample to C3 as stated: when the recorded cost after one chunk
equals the ceiling exactly (5 = 5, so it is ≥ the ceiling), the loop still
dispatches the second chunk. -/
theorem C3_counterexample :
    recordedCost [some (sampleReview Verdict.approve 5),
        some (sampleReview Verdict.approve 1)] 1 = 5
      ∧ numDispatched [some (sampleReview Verdict.approve 5),
          some (sampleReview Verdict.approve 1)] (some 5) = 2
      ∧ ¬(numDispatched [some (sampleReview Verdict.approve 5),
          some (sampleReview Verdict.approve 1)] (some 5) ≤ 1) := by
  have hd : numDispatched [some (sampleReview Verdict.approve 5),
      some (sampleReview Verdict.approve 1)] (some 5) = 2 := by
    norm_num [numDispatched, chunkLoop, costLimitHit, sampleReview, sampleUsage]
  refine ⟨?_, hd, ?_⟩
  · norm_num [recordedCost, sampleReview, sampleUsage, List.filterMap_cons]
  · omega

/-- C4 (amended): whenever the cost ceiling stops chunk dispatch before all
planned chunks were processed, the run still completes successfully: the
reviews collected so far are merged and returned, not an error.  No
`truncated` flag is set — the `Review` type has no such field, and the
counterexample below shows the truncated run's output is identical to that
of an un-gated run whose remaining chunk simply failed. -/
theorem C4_graceful_truncation (outcomes : List (Option Review)) (costLimit : Option ℚ)
    (analysis : AnalysisResult)
    (h : numDispatched outcomes costLimit < outcomes.length) :
    (runMultiChunk outcomes costLimit analysis).isOk = true := by
  unfold numDispatched at h
  obtain ⟨r, hr⟩ := mergeChunkReviews_ok_of_ne_nil (chunkLoop costLimit outcomes 0).reviews
    analysis (chunkLoop_reviews_ne_nil costLimit outcomes 0 h)
  unfold runMultiChunk collectedReviews
  rw [hr]
  rfl

/-- Witness for C4: a first chunk costing 6 against a ceiling of 5 truncates
the run after one of two chunks, and the run still returns a review. -/
theorem C4_witness :
    numDispatched [some (sampleReview Verdict.approve 6),
        some (sampleReview Verdict.approve 0)] (some 5)
      < ([some (sampleReview Verdict.approve 6),
          some (sampleReview Verdict.approve 0)] : List (Option Review)).length
      ∧ (runMultiChunk [some (sampleReview Verdict.approve 6),
          some (sampleReview Verdict.approve 0)] (some 5) sampleAnalysis).isOk = true := by
  have hd : numDispatched [some (sampleReview Verdict.approve 6),
      some (sampleReview Verdict.approve 0)] (some 5) = 1 := by
    norm_num [numDispatched, chunkLoop, costLimitHit, sampleReview, sampleUsage]
  have hlt : numDispatched [some (sampleReview Verdict.approve 6),
      some (sampleReview Verdict.approve 0)] (some 5)
      < ([some (sampleReview Verdict.approve 6),
          some (sampleReview Verdict.approve 0)] : List (Option Review)).length := by
    rw [hd]
    norm_num
  exact ⟨hlt, C4_graceful_truncation _ _ sampleAnalysis hlt⟩

/-- Counterexample to the `truncated = true` part of C4: a run whose third
chunk is cut off by the ceiling produces exactly the same `Review` as an
un-gated run whose third chunk failed — the output carries no truncation
marker of any kind. -/
theorem C4_counterexample :
    numDispatched [some (sampleReview Verdict.approve 3), some (sampleReview Verdict.comment 3),
        some (sampleReview Verdict.approve 1)] (some 5) = 2
      ∧ numDispatched [some (sampleReview Verdict.approve 3),
          some (sampleReview Verdict.comment 3), none] none = 3
      ∧ runMultiChunk [some (sampleReview Verdict.approve 3),
          some (sampleReview Verdict.comment 3), some (sampleReview Verdict.approve 1)]
          (some 5) sampleAnalysis
        = runMultiChunk [some (sampleReview Verdict.approve 3),
          some (sampleReview Verdict.comment 3), none] none sampleAnalysis := by
  have hA : collectedReviews [some (sampleReview Verdict.approve 3),
      some (sampleReview Verdict.comment 3), some (sampleReview Verdict.approve 1)] (some 5)
      = [sampleReview Verdict.approve 3, sampleReview Verdict.comment 3] := by
    norm_num [collectedReviews, chunkLoop, costLimitHit, sampleReview, sampleUsage]
  have hB : collectedReviews [some (sampleReview Verdict.approve 3),
      some (sampleReview Verdict.comment 3), none] none
      = [sampleReview Verdict.approve 3, sampleReview Verdict.comment 3] := by
    norm_num [collectedReviews, chunkLoop, costLimitHit, sampleReview, sampleUsage]
  refine ⟨?_, ?_, ?_⟩
  · norm_num [numDispatched, chunkLoop, costLimitHit, sampleReview, sampleUsage]
  · norm_num [numDispatched, chunkLoop, costLimitHit, sampleReview, sampleUsage]
  · unfold runMultiChunk
    rw [hA, hB]

/-- C5: for every list of two or more chunk reviews, `mergeChunkReviews`
sets the merged summary verdict to the dominant verdict under the fixed
order request-changes > comment > approve, and the merged verdict is
invariant under permutation of the review list. -/
theorem C5_verdict_dominance (reviews reviews2 : List Review) (analysis : AnalysisResult)
    (h2 : 2 ≤ reviews.length) (hperm : reviews.Perm reviews2) :
    mergedVerdict reviews analysis
        = some (dominantVerdict (reviews.map (fun r => r.summary.verdict)))
      ∧ mergedVerdict reviews2 analysis = mergedVerdict reviews analysis := by
  have h2b : 2 ≤ reviews2.length := hperm.length_eq ▸ h2
  rcases reviews with _ | ⟨a, _ | ⟨b, t⟩⟩
  · simp at h2
  · simp at h2
  rcases reviews2 with _ | ⟨a2, _ | ⟨b2, t2⟩⟩
  · simp at h2b
  · simp at h2b
  have e1 : mergedVerdict (a :: b :: t) analysis
      = some (overallVerdictOf ((a :: b :: t).map (fun r => r.summary.verdict))) := by
    unfold mergedVerdict
    rfl
  have e2 : mergedVerdict (a2 :: b2 :: t2) analysis
      = some (overallVerdictOf ((a2 :: b2 :: t2).map (fun r => r.summary.verdict))) := by
    unfold mergedVerdict
    rfl
  constructor
  · rw [e1, overallVerdictOf_eq_dominant]
  · rw [e1, e2, overallVerdictOf_perm _ _ (hperm.map (fun r => r.summary.verdict))]

/-- Witness for C5: merging reviews with verdicts
[comment, approve, request-changes] and the reversed permutation both yield
request-changes. -/
theorem C5_witness :
    mergedVerdict [sampleReview Verdict.comment 0, sampleReview Verdict.approve 0,
        sampleReview Verdict.requestChanges 0] sampleAnalysis
        = some (dominantVerdict ([sampleReview Verdict.comment 0,
            sampleReview Verdict.approve 0,
            sampleReview Verdict.requestChanges 0].map (fun r => r.summary.verdict)))
      ∧ mergedVerdict ([sampleReview Verdict.comment 0, sampleReview Verdict.approve 0,
          sampleReview Verdict.requestChanges 0].reverse) sampleAnalysis
        = mergedVerdict [sampleReview Verdict.comment 0, sampleReview Verdict.approve 0,
            sampleReview Verdict.requestChanges 0] sampleAnalysis
      ∧ dominantVerdict ([sampleReview Verdict.comment 0, sampleReview Verdict.approve 0,
          sampleReview Verdict.requestChanges 0].map (fun r => r.summary.verdict))
        = Verdict.requestChanges := by
  have h := C5_verdict_dominance [sampleReview Verdict.comment 0, sampleReview Verdict.approve 0,
      sampleReview Verdict.requestChanges 0]
    ([sampleReview Verdict.comment 0, sampleReview Verdict.approve 0,
      sampleReview Verdict.requestChanges 0].reverse) sampleAnalysis (by norm_num)
    (List.reverse_perm _).symm
  exact ⟨h.1, h.2, by decide⟩

/-- C9: in a multi-chunk run, the run returns a merged review exactly when
at least one chunk dispatch succeeds (individual chunk failures never fail
the run), and when every chunk fails the run fails with the
"No reviews to merge" error. -/
theorem C9_failure_tolerance (outcomes : List (Option Review)) (costLimit : Option ℚ)
    (analysis : AnalysisResult) (h2 : 2 ≤ outcomes.length) :
    ((runMultiChunk outcomes costLimit analysis).isOk = true ↔ ∃ o ∈ outcomes, o ≠ none)
      ∧ ((∀ o ∈ outcomes, o = none) →
          runMultiChunk outcomes costLimit analysis = .error "No reviews to merge") := by
  have hnil := chunkLoop_reviews_nil_iff costLimit outcomes 0
  have herror : (∀ o ∈ outcomes, o = none) →
      runMultiChunk outcomes costLimit analysis = .error "No reviews to merge" := by
    intro hall
    unfold runMultiChunk collectedReviews
    rw [hnil.mpr hall]
    rfl
  refine ⟨?_, herror⟩
  by_cases hall : ∀ o ∈ outcomes, o = none
  · rw [herror hall]
    constructor
    · intro habs
      exact absurd habs (by decide)
    · rintro ⟨o, ho, hne⟩
      exact absurd (hall o ho) hne
  · have hrevne : (chunkLoop costLimit outcomes 0).reviews ≠ [] :=
      fun hc => hall (hnil.mp hc)
    obtain ⟨r, hr⟩ := mergeChunkReviews_ok_of_ne_nil _ analysis hrevne
    have hok : (runMultiChunk outcomes costLimit analysis).isOk = true := by
      unfold runMultiChunk collectedReviews
      rw [hr]
      rfl
    rw [hok]
    push_neg at hall
    obtain ⟨o, ho, hne⟩ := hall
    exact iff_of_true rfl ⟨o, ho, hne⟩

/-- Witness for C9: with one failed and one successful chunk outcome, the
run succeeds. -/
theorem C9_witness :
    (((runMultiChunk [none, some (sampleReview Verdict.approve 0)] none
        sampleAnalysis).isOk = true)
      ↔ ∃ o ∈ ([none, some (sampleReview Verdict.approve 0)] : List (Option Review)), o ≠ none)
      ∧ ((∀ o ∈ ([none, some (sampleReview Verdict.approve 0)] : List (Option Review)),
          o = none) →
        runMultiChunk [none, some (sampleReview Verdict.approve 0)] none sampleAnalysis
          = .error "No reviews to merge") :=
  C9_failure_tolerance [none, some (sampleReview Verdict.approve 0)] none sampleAnalysis
    (by norm_num)

end AIPRBot
